import Mathlib

/-
Verification development for the aerograph fluid core
(src/utils/fluidSolver.ts, with the reset glue from src/App.tsx).

The solver is embedded shallowly: a Float32Array buffer of length (N+2)^2
becomes a total function from flat offsets to rationals (float values are
idealized as exact rationals; offsets at or beyond the allocated length do
not exist in the source and are never read or written through IX, which is
clamped into the allocated range). In-place loops become left folds of
single-cell writes in the same order as the source, so Gauss-Seidel style
in-place updates and write ordering are represented faithfully.
-/

set_option maxHeartbeats 2000000

/-- A field buffer: flat offsets to cell values (embeds a Float32Array of
length (N+2)^2). -/
abbrev Buf := ℕ → ℚ

/-- Single-cell write at a flat offset. -/
def upd (f : Buf) (k : ℕ) (v : ℚ) : Buf := fun m => if m = k then v else f m

/-- Coordinate flattening with clamping, as an integer
(IX in fluidSolver.ts: clamp x and y to [0, N+1], return x + (N+2)*y). -/
def ixZ (N : ℕ) (x y : ℤ) : ℤ :=
  max 0 (min x ((N : ℤ) + 1)) + ((N : ℤ) + 2) * max 0 (min y ((N : ℤ) + 1))

/-- IX as a natural-number offset into the flat buffer. -/
def IX (N : ℕ) (x y : ℤ) : ℕ := (ixZ N x y).toNat

/-- Read the cell at coordinates (x, y): every access in the source goes
through IX. -/
def get2 (N : ℕ) (f : Buf) (x y : ℤ) : ℚ := f (IX N x y)

/-- Write the cell at coordinates (x, y) through IX. -/
def set2 (N : ℕ) (f : Buf) (x y : ℤ) (v : ℚ) : Buf := upd f (IX N x y) v

/-- Loop counter values 1..N as integers (the interior range of every loop). -/
def range1 (N : ℕ) : List ℤ := (List.range N).map (fun k : ℕ => (k : ℤ) + 1)

/-- The interior cells in source loop order (j outer, i inner), as (i, j). -/
def interiorList (N : ℕ) : List (ℤ × ℤ) :=
  (range1 N).flatMap (fun j => (range1 N).map (fun i => (i, j)))

/-- Canonical in-place sweep: fold single-cell writes over a cell list, each
write's value computed from the current buffer. -/
def sweep (N : ℕ) (cells : List (ℤ × ℤ)) (V : Buf → ℤ → ℤ → ℚ) (f : Buf) : Buf :=
  cells.foldl (fun g c => set2 N g c.1 c.2 (V g c.1 c.2)) f

/-- The horizontal boundary cells written by the first loop of set_bnd,
in source order: for i = 1..N, first (i, 0) then (i, N+1). -/
def rowCells (N : ℕ) : List (ℤ × ℤ) :=
  (range1 N).flatMap (fun i => [(i, (0 : ℤ)), (i, (N : ℤ) + 1)])

/-- The vertical boundary cells written by the second loop of set_bnd,
in source order: for j = 1..N, first (0, j) then (N+1, j). -/
def colCells (N : ℕ) : List (ℤ × ℤ) :=
  (range1 N).flatMap (fun j => [((0 : ℤ), j), ((N : ℤ) + 1, j)])

/-- Value written by set_bnd on the top/bottom edges: the vertical interior
neighbor, negated exactly when b = 2 (velocity-y kind). -/
def rowVal (N b : ℕ) (x : Buf) (i j : ℤ) : ℚ :=
  if j = 0 then (if b = 2 then -(get2 N x i 1) else get2 N x i 1)
  else (if b = 2 then -(get2 N x i (N : ℤ)) else get2 N x i (N : ℤ))

/-- Value written by set_bnd on the left/right edges: the horizontal interior
neighbor, negated exactly when b = 1 (velocity-x kind). -/
def colVal (N b : ℕ) (x : Buf) (i j : ℤ) : ℚ :=
  if i = 0 then (if b = 1 then -(get2 N x 1 j) else get2 N x 1 j)
  else (if b = 1 then -(get2 N x (N : ℤ) j) else get2 N x (N : ℤ) j)

/-- The two edge loops of set_bnd (each iteration performs its two writes in
source order). -/
def bndEdges (N b : ℕ) (x : Buf) : Buf :=
  sweep N (colCells N) (colVal N b) (sweep N (rowCells N) (rowVal N b) x)

/-- The four corner writes of set_bnd, in source order, each the average of
its two adjacent edge cells as they stand at that point. -/
def bndCorners (N : ℕ) (x2 : Buf) : Buf :=
  let x3 := set2 N x2 0 0 ((1 / 2) * (get2 N x2 1 0 + get2 N x2 0 1))
  let x4 := set2 N x3 0 ((N : ℤ) + 1)
    ((1 / 2) * (get2 N x3 1 ((N : ℤ) + 1) + get2 N x3 0 (N : ℤ)))
  let x5 := set2 N x4 ((N : ℤ) + 1) 0
    ((1 / 2) * (get2 N x4 (N : ℤ) 0 + get2 N x4 ((N : ℤ) + 1) 1))
  set2 N x5 ((N : ℤ) + 1) ((N : ℤ) + 1)
    ((1 / 2) * (get2 N x5 (N : ℤ) ((N : ℤ) + 1) + get2 N x5 ((N : ℤ) + 1) (N : ℤ)))

/-- set_bnd from fluidSolver.ts: the two edge loops, then the four corner
writes. -/
def set_bnd (N b : ℕ) (x : Buf) : Buf := bndCorners N (bndEdges N b x)

/-- The Gauss-Seidel update value of lin_solve at cell (i, j):
(x0[i,j] + a*(x[i+1,j] + x[i-1,j] + x[i,j+1] + x[i,j-1])) * cRecip. -/
def linVal (N : ℕ) (x0 : Buf) (a cRecip : ℚ) (x : Buf) (i j : ℤ) : ℚ :=
  (get2 N x0 i j +
    a * (get2 N x (i + 1) j + get2 N x (i - 1) j +
         get2 N x i (j + 1) + get2 N x i (j - 1))) * cRecip

/-- lin_solve from fluidSolver.ts: iter sweeps over the interior, each
followed by set_bnd. cRecip = 1/c as in the source. -/
def lin_solve (N b : ℕ) (x x0 : Buf) (a c : ℚ) : ℕ → Buf
  | 0 => x
  | k + 1 =>
    lin_solve N b (set_bnd N b (sweep N (interiorList N) (linVal N x0 a (1 / c)) x)) x0 a c k

/-- diffuse from fluidSolver.ts: a = dt * diff * (N-2)^2,
lin_solve with c = 1 + 6a. -/
def diffuse (N b : ℕ) (x x0 : Buf) (diff dt : ℚ) (iter : ℕ) : Buf :=
  let a := dt * diff * ((N : ℚ) - 2) * ((N : ℚ) - 2)
  lin_solve N b x x0 a (1 + 6 * a) iter

/-- The divergence value written by project at cell (i, j). -/
def divVal (N : ℕ) (velocX velocY : Buf) (i j : ℤ) : ℚ :=
  (-(1 / 2) * (get2 N velocX (i + 1) j - get2 N velocX (i - 1) j +
               get2 N velocY i (j + 1) - get2 N velocY i (j - 1))) / (N : ℚ)

/-- project from fluidSolver.ts. Result components, in order: the updated
velocX, velocY, p and div buffers. The first loop writes div then p per cell
(the two buffers are distinct arrays, so the interleaved writes are a fold on
the pair); then set_bnd(0) on div and p, the pressure solve with a = 1,
c = 6, the gradient-subtraction loop (velocX then velocY per cell), and the
final boundary passes. -/
def project (N : ℕ) (velocX velocY p div : Buf) (iter : ℕ) :
    Buf × Buf × Buf × Buf :=
  let pd := (interiorList N).foldl
    (fun (pr : Buf × Buf) c =>
      (set2 N pr.1 c.1 c.2 (divVal N velocX velocY c.1 c.2), set2 N pr.2 c.1 c.2 0))
    (div, p)
  let div1 := set_bnd N 0 pd.1
  let p1 := set_bnd N 0 pd.2
  let p2 := lin_solve N 0 p1 div1 1 6 iter
  let vv := (interiorList N).foldl
    (fun (v : Buf × Buf) c =>
      (set2 N v.1 c.1 c.2
        (get2 N v.1 c.1 c.2 -
          (1 / 2) * (N : ℚ) * (get2 N p2 (c.1 + 1) c.2 - get2 N p2 (c.1 - 1) c.2)),
       set2 N v.2 c.1 c.2
        (get2 N v.2 c.1 c.2 -
          (1 / 2) * (N : ℚ) * (get2 N p2 c.1 (c.2 + 1) - get2 N p2 c.1 (c.2 - 1)))))
    (velocX, velocY)
  (set_bnd N 1 vv.1, set_bnd N 2 vv.2, p2, div1)

/-- The semi-Lagrangian sample value of advect at cell (i, j): backtrace by
dt*(N-2) along the velocity, clamp into [0.5, N+0.5], bilinear interpolation
of d0 at the four surrounding cells. -/
def advVal (N : ℕ) (d0 velocX velocY : Buf) (dt : ℚ) (i j : ℤ) : ℚ :=
  let dt0 := dt * ((N : ℚ) - 2)
  let x := (i : ℚ) - dt0 * get2 N velocX i j
  let y := (j : ℚ) - dt0 * get2 N velocY i j
  let x1 := if x < 1 / 2 then 1 / 2 else x
  let x2 := if x1 > (N : ℚ) + 1 / 2 then (N : ℚ) + 1 / 2 else x1
  let y1 := if y < 1 / 2 then 1 / 2 else y
  let y2 := if y1 > (N : ℚ) + 1 / 2 then (N : ℚ) + 1 / 2 else y1
  let i0 : ℤ := ⌊x2⌋
  let i1 : ℤ := i0 + 1
  let j0 : ℤ := ⌊y2⌋
  let j1 : ℤ := j0 + 1
  let s1 := x2 - (i0 : ℚ)
  let s0 := 1 - s1
  let t1 := y2 - (j0 : ℚ)
  let t0 := 1 - t1
  s0 * (t0 * get2 N d0 i0 j0 + t1 * get2 N d0 i0 j1) +
    s1 * (t0 * get2 N d0 i1 j0 + t1 * get2 N d0 i1 j1)

/-- advect from fluidSolver.ts: overwrite d on the interior with the
backtraced bilinear samples of d0, then set_bnd. The sample value reads only
d0 and the velocity buffers, never the buffer being written. -/
def advect (N b : ℕ) (d d0 velocX velocY : Buf) (dt : ℚ) : Buf :=
  set_bnd N b (sweep N (interiorList N) (fun _ i j => advVal N d0 velocX velocY dt i j) d)

/-- The solver state: grid size, configuration scalars and the six buffers
(the FluidSolver class fields in fluidSolver.ts). -/
structure FluidSolver where
  size : ℕ
  dt : ℚ
  diff : ℚ
  visc : ℚ
  s : Buf
  density : Buf
  Vx : Buf
  Vy : Buf
  Vx0 : Buf
  Vy0 : Buf

/-- The velocity half of step from fluidSolver.ts: diffuse both velocity
components, project (p and div scratch in Vx and Vy), self-advect from the
projected previous buffers, project again (p and div scratch in Vx0 and Vy0).
Result components, in order: the new Vx, Vy, Vx0 and Vy0 buffers. -/
def stepVel (N : ℕ) (Vx Vy Vx0 Vy0 : Buf) (visc dt : ℚ) (iter : ℕ) :
    Buf × Buf × Buf × Buf :=
  let vx0a := diffuse N 1 Vx0 Vx visc dt iter
  let vy0a := diffuse N 2 Vy0 Vy visc dt iter
  let pr1 := project N vx0a vy0a Vx Vy iter
  let vxb := advect N 1 pr1.2.2.1 pr1.1 pr1.1 pr1.2.1 dt
  let vyb := advect N 2 pr1.2.2.2 pr1.2.1 pr1.1 pr1.2.1 dt
  project N vxb vyb pr1.1 pr1.2.1 iter

/-- The dissipation loop of step: every allocated offset is mapped to
max(0, value * (1 - fadeRate)). -/
def fadeBuf (len : ℕ) (fadeRate : ℚ) (d : Buf) : Buf :=
  fun k => if k < len then max 0 (d k * (1 - fadeRate)) else d k

/-- step from fluidSolver.ts: the velocity pipeline, then diffuse density
into s, advect density by the final velocity, then the fade loop over the
allocated offsets (only when fadeRate > 0). -/
def FluidSolver.step (sol : FluidSolver) (iter : ℕ) (fadeRate : ℚ) : FluidSolver :=
  let N := sol.size
  let vel := stepVel N sol.Vx sol.Vy sol.Vx0 sol.Vy0 sol.visc sol.dt iter
  let s1 := diffuse N 0 sol.s sol.density sol.diff sol.dt iter
  let d1 := advect N 0 sol.density s1 vel.1 vel.2.1 sol.dt
  let d2 := if 0 < fadeRate then fadeBuf ((N + 2) * (N + 2)) fadeRate d1 else d1
  { sol with s := s1, density := d2, Vx := vel.1, Vy := vel.2.1,
             Vx0 := vel.2.2.1, Vy0 := vel.2.2.2 }

/-- addDensity from fluidSolver.ts: one additive write to density at IX(x,y),
unclamped and total in the coordinates. -/
def FluidSolver.addDensity (sol : FluidSolver) (x y : ℤ) (amount : ℚ) : FluidSolver :=
  let k := IX sol.size x y
  { sol with density := upd sol.density k (sol.density k + amount) }

/-- addVelocity from fluidSolver.ts: additive writes to Vx and Vy at IX(x,y). -/
def FluidSolver.addVelocity (sol : FluidSolver) (x y : ℤ) (amountX amountY : ℚ) :
    FluidSolver :=
  let k := IX sol.size x y
  { sol with Vx := upd sol.Vx k (sol.Vx k + amountX),
             Vy := upd sol.Vy k (sol.Vy k + amountY) }

/-- handleReset from App.tsx: fill density, Vx, Vy, Vx0 and Vy0 with zeros
over the allocated length. The work buffer s is not touched by the source. -/
def FluidSolver.reset (sol : FluidSolver) : FluidSolver :=
  let len := (sol.size + 2) * (sol.size + 2)
  { sol with density := fun k => if k < len then 0 else sol.density k,
             Vx := fun k => if k < len then 0 else sol.Vx k,
             Vy := fun k => if k < len then 0 else sol.Vy k,
             Vx0 := fun k => if k < len then 0 else sol.Vx0 k,
             Vy0 := fun k => if k < len then 0 else sol.Vy0 k }

/-- The FluidSolver constructor: store the scalars and allocate the six
zero-filled buffers (each a Float32Array of length (N+2)*(N+2) in the
source). It performs no validation. -/
def mkSolver (size : ℕ) (diffusion viscosity dt : ℚ) : FluidSolver :=
  { size := size, dt := dt, diff := diffusion, visc := viscosity,
    s := fun _ => 0, density := fun _ => 0,
    Vx := fun _ => 0, Vy := fun _ => 0,
    Vx0 := fun _ => 0, Vy0 := fun _ => 0 }

/-- The error the specification assigns to the construction failure surface. -/
inductive ConstructError where
  | invalidConfiguration
deriving DecidableEq

/-- Construction viewed as a fallible operation: the source constructor has
no validation and no failure path, so it always returns the freshly built
solver. -/
def construct (size : ℕ) (diffusion viscosity dt : ℚ) :
    Except ConstructError FluidSolver :=
  .ok (mkSolver size diffusion viscosity dt)

/-- Modelled from the spec (§7; there is no validation code in the source):
a configuration is valid when the grid resolution is a positive integer and
diffusion rate, viscosity and time step are non-negative (the spec's
non-finite float inputs have no counterpart in the rational embedding). -/
def specValidConfig (size : ℕ) (diffusion viscosity dt : ℚ) : Prop :=
  0 < size ∧ 0 ≤ diffusion ∧ 0 ≤ viscosity ∧ 0 ≤ dt

instance (size : ℕ) (diffusion viscosity dt : ℚ) :
    Decidable (specValidConfig size diffusion viscosity dt) := by
  unfold specValidConfig; infer_instance

/-- In-range coordinates: the clamped box [0, N+1] x [0, N+1] that IX maps
bijectively onto the allocated offsets. -/
def ValidC (N : ℕ) (i j : ℤ) : Prop :=
  0 ≤ i ∧ i ≤ (N : ℤ) + 1 ∧ 0 ≤ j ∧ j ≤ (N : ℤ) + 1

instance (N : ℕ) (i j : ℤ) : Decidable (ValidC N i j) := by
  unfold ValidC; infer_instance

/-- Every cell of a buffer is zero. -/
def ZeroBuf (f : Buf) : Prop := ∀ k, f k = 0

/-- Every cell of a buffer is non-negative. -/
def NonnegBuf (f : Buf) : Prop := ∀ k, 0 ≤ f k

/-- All four velocity buffers of a solver are zero. -/
def ZeroVel (sol : FluidSolver) : Prop :=
  ZeroBuf sol.Vx ∧ ZeroBuf sol.Vy ∧ ZeroBuf sol.Vx0 ∧ ZeroBuf sol.Vy0

/-- All six buffers of a solver are zero. -/
def ZeroSolver (sol : FluidSolver) : Prop :=
  ZeroBuf sol.s ∧ ZeroBuf sol.density ∧ ZeroVel sol

/-! ### Basic lemmas about writes and the coordinate map -/

theorem upd_same (f : Buf) (k : ℕ) (v : ℚ) : upd f k v k = v := by simp [upd]

theorem upd_ne (f : Buf) (k m : ℕ) (v : ℚ) (h : m ≠ k) : upd f k v m = f m := by
  simp [upd, h]

theorem ixZ_nonneg (N : ℕ) (x y : ℤ) : 0 ≤ ixZ N x y := by
  unfold ixZ
  have h1 : (0 : ℤ) ≤ max 0 (min x ((N : ℤ) + 1)) := le_max_left _ _
  have h2 : (0 : ℤ) ≤ max 0 (min y ((N : ℤ) + 1)) := le_max_left _ _
  have h3 : (0 : ℤ) ≤ ((N : ℤ) + 2) := by positivity
  nlinarith

theorem ixZ_lt (N : ℕ) (x y : ℤ) : ixZ N x y < ((N : ℤ) + 2) * ((N : ℤ) + 2) := by
  unfold ixZ
  have hx : max 0 (min x ((N : ℤ) + 1)) ≤ (N : ℤ) + 1 :=
    max_le (by positivity) (min_le_right _ _)
  have hy : max 0 (min y ((N : ℤ) + 1)) ≤ (N : ℤ) + 1 :=
    max_le (by positivity) (min_le_right _ _)
  have hy0 : (0 : ℤ) ≤ max 0 (min y ((N : ℤ) + 1)) := le_max_left _ _
  nlinarith

theorem IX_lt (N : ℕ) (x y : ℤ) : IX N x y < (N + 2) * (N + 2) := by
  have h0 := ixZ_nonneg N x y
  have h1 := ixZ_lt N x y
  have h2 : (((N + 2) * (N + 2) : ℕ) : ℤ) = ((N : ℤ) + 2) * ((N : ℤ) + 2) := by
    push_cast; ring
  unfold IX
  omega

theorem ixZ_valid (N : ℕ) {i j : ℤ} (h : ValidC N i j) :
    ixZ N i j = i + ((N : ℤ) + 2) * j := by
  obtain ⟨h1, h2, h3, h4⟩ := h
  unfold ixZ
  rw [min_eq_left h2, max_eq_right h1, min_eq_left h4, max_eq_right h3]

theorem IX_inj (N : ℕ) {i j i' j' : ℤ} (h : ValidC N i j) (h' : ValidC N i' j')
    (he : IX N i j = IX N i' j') : i = i' ∧ j = j' := by
  have e1 : ixZ N i j = ixZ N i' j' := by
    have n1 := ixZ_nonneg N i j
    have n2 := ixZ_nonneg N i' j'
    unfold IX at he
    omega
  rw [ixZ_valid N h, ixZ_valid N h'] at e1
  obtain ⟨a1, a2, a3, a4⟩ := h
  obtain ⟨b1, b2, b3, b4⟩ := h'
  have hN : ((N : ℤ) + 2) ≠ 0 := by positivity
  have hmi : (i + ((N : ℤ) + 2) * j) % ((N : ℤ) + 2) = i := by
    rw [Int.add_mul_emod_self_left]
    exact Int.emod_eq_of_lt a1 (by omega)
  have hmi' : (i' + ((N : ℤ) + 2) * j') % ((N : ℤ) + 2) = i' := by
    rw [Int.add_mul_emod_self_left]
    exact Int.emod_eq_of_lt b1 (by omega)
  have hii : i = i' := by rw [← hmi, ← hmi', e1]
  constructor
  · exact hii
  · have : ((N : ℤ) + 2) * j = ((N : ℤ) + 2) * j' := by omega
    exact mul_left_cancel₀ hN this

theorem IX_decode (N : ℕ) (k : ℕ) (hk : k < (N + 2) * (N + 2)) :
    ∃ i j : ℤ, ValidC N i j ∧ IX N i j = k := by
  refine ⟨((k % (N + 2) : ℕ) : ℤ), ((k / (N + 2) : ℕ) : ℤ), ?_, ?_⟩
  · have h1 : k % (N + 2) < N + 2 := Nat.mod_lt _ (by omega)
    have h2 : k / (N + 2) < N + 2 := Nat.div_lt_of_lt_mul (by omega)
    refine ⟨by positivity, by exact_mod_cast by omega, by positivity, by exact_mod_cast by omega⟩
  · have hv : ValidC N ((k % (N + 2) : ℕ) : ℤ) ((k / (N + 2) : ℕ) : ℤ) := by
      have h1 : k % (N + 2) < N + 2 := Nat.mod_lt _ (by omega)
      have h2 : k / (N + 2) < N + 2 := Nat.div_lt_of_lt_mul (by omega)
      refine ⟨by positivity, by exact_mod_cast by omega, by positivity, by exact_mod_cast by omega⟩
    unfold IX
    rw [ixZ_valid N hv]
    have hnat : k % (N + 2) + (N + 2) * (k / (N + 2)) = k := Nat.mod_add_div k (N + 2)
    have : ((k % (N + 2) : ℕ) : ℤ) + ((N : ℤ) + 2) * ((k / (N + 2) : ℕ) : ℤ) = (k : ℤ) := by
      exact_mod_cast congrArg (fun n : ℕ => (n : ℤ)) hnat
    rw [this]
    omega

theorem get2_set2_same (N : ℕ) (f : Buf) (x y : ℤ) (v : ℚ) :
    get2 N (set2 N f x y v) x y = v := upd_same _ _ _

theorem get2_set2_ne (N : ℕ) (f : Buf) {x y x' y' : ℤ} (v : ℚ)
    (h : ValidC N x y) (h' : ValidC N x' y') (hne : (x', y') ≠ (x, y)) :
    get2 N (set2 N f x y v) x' y' = get2 N f x' y' := by
  unfold get2 set2
  apply upd_ne
  intro he
  rcases IX_inj N h' h he with ⟨e1, e2⟩
  exact hne (Prod.ext e1 e2)

/-! ### The cell lists: membership and distinctness -/

theorem mem_range1 {N : ℕ} {i : ℤ} : i ∈ range1 N ↔ 1 ≤ i ∧ i ≤ (N : ℤ) := by
  unfold range1
  simp only [List.mem_map, List.mem_range]
  constructor
  · rintro ⟨a, ha, rfl⟩
    omega
  · rintro ⟨h1, h2⟩
    refine ⟨(i - 1).toNat, ?_, ?_⟩ <;> omega

theorem nodup_range1 (N : ℕ) : (range1 N).Nodup := by
  unfold range1
  refine List.Nodup.map ?_ (List.nodup_range N)
  intro a b h
  have h' : (a : ℤ) + 1 = (b : ℤ) + 1 := h
  omega

theorem nodup_flatMap {α β : Type} (l : List α) (f : α → List β)
    (hl : l.Nodup)
    (hf : ∀ a ∈ l, (f a).Nodup)
    (hd : ∀ a ∈ l, ∀ b ∈ l, a ≠ b → ∀ x ∈ f a, x ∉ f b) :
    (l.flatMap f).Nodup := by
  induction l with
  | nil => simp
  | cons a t ih =>
    rw [List.flatMap_cons]
    rw [List.nodup_append]
    refine ⟨hf a (by simp), ?_, ?_⟩
    · exact ih (List.Nodup.of_cons hl) (fun b hb => hf b (by simp [hb]))
        (fun b hb c hc hbc => hd b (by simp [hb]) c (by simp [hc]) hbc)
    · intro x hx hx'
      rcases List.mem_flatMap.mp hx' with ⟨b, hb, hxb⟩
      have hab : a ≠ b := by
        rintro rfl
        exact (List.nodup_cons.mp hl).1 hb
      exact hd a (by simp) b (by simp [hb]) hab x hx hxb

theorem mem_interiorList {N : ℕ} {p : ℤ × ℤ} :
    p ∈ interiorList N ↔ 1 ≤ p.1 ∧ p.1 ≤ (N : ℤ) ∧ 1 ≤ p.2 ∧ p.2 ≤ (N : ℤ) := by
  unfold interiorList
  rcases p with ⟨i, j⟩
  simp only [List.mem_flatMap, List.mem_map]
  constructor
  · rintro ⟨j', hj', i', hi', he⟩
    obtain ⟨rfl, rfl⟩ := Prod.mk.injEq .. ▸ And.intro (congrArg Prod.fst he) (congrArg Prod.snd he)
    have h1 := mem_range1.mp hj'
    have h2 := mem_range1.mp hi'
    exact ⟨h2.1, h2.2, h1.1, h1.2⟩
  · rintro ⟨h1, h2, h3, h4⟩
    exact ⟨j, mem_range1.mpr ⟨h3, h4⟩, i, mem_range1.mpr ⟨h1, h2⟩, rfl⟩

theorem valid_interior {N : ℕ} {p : ℤ × ℤ} (h : p ∈ interiorList N) :
    ValidC N p.1 p.2 := by
  rcases mem_interiorList.mp h with ⟨h1, h2, h3, h4⟩
  exact ⟨by omega, by omega, by omega, by omega⟩

theorem nodup_interiorList (N : ℕ) : (interiorList N).Nodup := by
  unfold interiorList
  apply nodup_flatMap
  · exact nodup_range1 N
  · intro j _
    refine List.Nodup.map ?_ (nodup_range1 N)
    intro a b hab
    exact congrArg Prod.fst hab
  · intro a _ b _ hab x hx hx'
    rcases List.mem_map.mp hx with ⟨i, _, rfl⟩
    rcases List.mem_map.mp hx' with ⟨i', _, he⟩
    exact hab ((congrArg Prod.snd he).symm)

theorem mem_rowCells {N : ℕ} {p : ℤ × ℤ} :
    p ∈ rowCells N ↔ (1 ≤ p.1 ∧ p.1 ≤ (N : ℤ) ∧ (p.2 = 0 ∨ p.2 = (N : ℤ) + 1)) := by
  unfold rowCells
  rcases p with ⟨i, j⟩
  simp only [List.mem_flatMap, List.mem_cons, List.not_mem_nil, or_false, Prod.mk.injEq]
  constructor
  · rintro ⟨i', hi', (⟨rfl, rfl⟩ | ⟨rfl, rfl⟩)⟩ <;>
      rcases mem_range1.mp hi' with ⟨h1, h2⟩
    · exact ⟨h1, h2, Or.inl rfl⟩
    · exact ⟨h1, h2, Or.inr rfl⟩
  · rintro ⟨h1, h2, (rfl | rfl)⟩
    · exact ⟨i, mem_range1.mpr ⟨h1, h2⟩, Or.inl ⟨rfl, rfl⟩⟩
    · exact ⟨i, mem_range1.mpr ⟨h1, h2⟩, Or.inr ⟨rfl, rfl⟩⟩

theorem valid_rowCells {N : ℕ} {p : ℤ × ℤ} (h : p ∈ rowCells N) : ValidC N p.1 p.2 := by
  rcases mem_rowCells.mp h with ⟨h1, h2, h3 | h3⟩ <;>
    exact ⟨by omega, by omega, by omega, by omega⟩

theorem nodup_rowCells (N : ℕ) : (rowCells N).Nodup := by
  unfold rowCells
  apply nodup_flatMap
  · exact nodup_range1 N
  · intro i _
    have hne : ((i, (0 : ℤ)) : ℤ × ℤ) ≠ (i, (N : ℤ) + 1) := by
      intro h
      have h2 := congrArg Prod.snd h
      simp only [Prod.snd] at h2
      omega
    simp [List.nodup_cons, hne]
  · intro a _ b _ hab x hx hx'
    simp only [List.mem_cons, List.mem_singleton, List.not_mem_nil, or_false] at hx hx'
    apply hab
    rcases hx with rfl | rfl <;> rcases hx' with he | he <;>
      simpa using congrArg Prod.fst he

theorem mem_colCells {N : ℕ} {p : ℤ × ℤ} :
    p ∈ colCells N ↔ (1 ≤ p.2 ∧ p.2 ≤ (N : ℤ) ∧ (p.1 = 0 ∨ p.1 = (N : ℤ) + 1)) := by
  unfold colCells
  rcases p with ⟨i, j⟩
  simp only [List.mem_flatMap, List.mem_cons, List.not_mem_nil, or_false, Prod.mk.injEq]
  constructor
  · rintro ⟨j', hj', (⟨rfl, rfl⟩ | ⟨rfl, rfl⟩)⟩ <;>
      rcases mem_range1.mp hj' with ⟨h1, h2⟩
    · exact ⟨h1, h2, Or.inl rfl⟩
    · exact ⟨h1, h2, Or.inr rfl⟩
  · rintro ⟨h1, h2, (rfl | rfl)⟩
    · exact ⟨j, mem_range1.mpr ⟨h1, h2⟩, Or.inl ⟨rfl, rfl⟩⟩
    · exact ⟨j, mem_range1.mpr ⟨h1, h2⟩, Or.inr ⟨rfl, rfl⟩⟩

theorem valid_colCells {N : ℕ} {p : ℤ × ℤ} (h : p ∈ colCells N) : ValidC N p.1 p.2 := by
  rcases mem_colCells.mp h with ⟨h1, h2, h3 | h3⟩ <;>
    exact ⟨by omega, by omega, by omega, by omega⟩

theorem nodup_colCells (N : ℕ) : (colCells N).Nodup := by
  unfold colCells
  apply nodup_flatMap
  · exact nodup_range1 N
  · intro j _
    have hne : (((0 : ℤ), j) : ℤ × ℤ) ≠ ((N : ℤ) + 1, j) := by
      intro h
      have h2 := congrArg Prod.fst h
      simp only [Prod.fst] at h2
      omega
    simp [List.nodup_cons, hne]
  · intro a _ b _ hab x hx hx'
    simp only [List.mem_cons, List.mem_singleton, List.not_mem_nil, or_false] at hx hx'
    apply hab
    rcases hx with rfl | rfl <;> rcases hx' with he | he <;>
      simpa using congrArg Prod.snd he

/-! ### Generic lemmas about in-place sweeps -/

theorem sweep_nil (N : ℕ) (V : Buf → ℤ → ℤ → ℚ) (f : Buf) : sweep N [] V f = f := rfl

theorem sweep_cons (N : ℕ) (c : ℤ × ℤ) (t : List (ℤ × ℤ)) (V : Buf → ℤ → ℤ → ℚ)
    (f : Buf) : sweep N (c :: t) V f = sweep N t V (set2 N f c.1 c.2 (V f c.1 c.2)) := rfl

/-- A sweep leaves untouched every raw offset that is not the IX-image of one
of its cells. -/
theorem sweep_frame (N : ℕ) (cells : List (ℤ × ℤ)) (V : Buf → ℤ → ℤ → ℚ) (f : Buf)
    (k : ℕ) (hk : ∀ c ∈ cells, k ≠ IX N c.1 c.2) :
    sweep N cells V f k = f k := by
  induction cells generalizing f with
  | nil => rfl
  | cons c t ih =>
    rw [sweep_cons]
    rw [ih _ (fun c' hc' => hk c' (by simp [hc']))]
    exact upd_ne _ _ _ _ (hk c (by simp))

/-- A sweep whose written values always satisfy a pointwise predicate
preserves that predicate on the whole buffer. -/
theorem sweep_pointwise (N : ℕ) (cells : List (ℤ × ℤ)) (V : Buf → ℤ → ℤ → ℚ)
    (P : ℚ → Prop) (f : Buf) (hf : ∀ k, P (f k))
    (hV : ∀ g c, c ∈ cells → (∀ k, P (g k)) → P (V g c.1 c.2)) :
    ∀ k, P (sweep N cells V f k) := by
  induction cells generalizing f with
  | nil => exact hf
  | cons c t ih =>
    rw [sweep_cons]
    apply ih
    · intro k
      by_cases hk : k = IX N c.1 c.2
      · subst hk
        rw [show set2 N f c.1 c.2 (V f c.1 c.2) (IX N c.1 c.2) = V f c.1 c.2 from
          upd_same _ _ _]
        exact hV f c (by simp) hf
      · rw [show set2 N f c.1 c.2 (V f c.1 c.2) k = f k from upd_ne _ _ _ _ hk]
        exact hf k
    · intro g c' hc' hg
      exact hV g c' (by simp [hc']) hg

/-- Characterization of a sweep whose cells are distinct and whose value
function reads the evolving buffer only at valid cells outside the write set
and at the cell being written: on valid coordinates, every listed cell ends
with the value computed from the initial buffer, everything else unchanged. -/
theorem sweep_char_aux (N : ℕ) (V : Buf → ℤ → ℤ → ℚ) (f : Buf)
    (full : List (ℤ × ℤ))
    (hvalid : ∀ c ∈ full, ValidC N c.1 c.2)
    (hV : ∀ g c, c ∈ full →
      (∀ q : ℤ × ℤ, ValidC N q.1 q.2 → q ∉ full → get2 N g q.1 q.2 = get2 N f q.1 q.2) →
      get2 N g c.1 c.2 = get2 N f c.1 c.2 →
      V g c.1 c.2 = V f c.1 c.2) :
    ∀ todo : List (ℤ × ℤ), (∀ c ∈ todo, c ∈ full) → todo.Nodup →
    ∀ g : Buf,
      (∀ q : ℤ × ℤ, ValidC N q.1 q.2 → q ∉ full → get2 N g q.1 q.2 = get2 N f q.1 q.2) →
      (∀ c ∈ todo, get2 N g c.1 c.2 = get2 N f c.1 c.2) →
      ∀ q : ℤ × ℤ, ValidC N q.1 q.2 →
        get2 N (sweep N todo V g) q.1 q.2 =
          if q ∈ todo then V f q.1 q.2 else get2 N g q.1 q.2 := by
  intro todo
  induction todo with
  | nil =>
    intro _ _ g _ _ q _
    simp [sweep_nil]
  | cons c t ih =>
    intro hsub hnodup g hout htodo q hq
    have hcfull : c ∈ full := hsub c (by simp)
    have hcvalid : ValidC N c.1 c.2 := hvalid c hcfull
    have hVc : V g c.1 c.2 = V f c.1 c.2 :=
      hV g c hcfull hout (htodo c (by simp))
    set g' := set2 N g c.1 c.2 (V g c.1 c.2) with hg'
    have hout' : ∀ q : ℤ × ℤ, ValidC N q.1 q.2 → q ∉ full →
        get2 N g' q.1 q.2 = get2 N f q.1 q.2 := by
      intro q' hq' hq'full
      have hne : q' ≠ c := fun h => hq'full (h ▸ hcfull)
      rw [hg', get2_set2_ne N g _ hcvalid hq' hne]
      exact hout q' hq' hq'full
    have htodo' : ∀ c' ∈ t, get2 N g' c'.1 c'.2 = get2 N f c'.1 c'.2 := by
      intro c' hc'
      have hne : c' ≠ c := by
        intro h
        subst h
        exact (List.nodup_cons.mp hnodup).1 hc'
      rw [hg', get2_set2_ne N g _ hcvalid (hvalid c' (hsub c' (by simp [hc']))) hne]
      exact htodo c' (by simp [hc'])
    have hrec := ih (fun c' hc' => hsub c' (by simp [hc'])) (List.nodup_cons.mp hnodup).2
      g' hout' htodo' q hq
    rw [sweep_cons, hrec]
    by_cases hqt : q ∈ t
    · simp [hqt, List.mem_cons, hqt]
    · by_cases hqc : q = c
      · subst hqc
        simp only [hqt, if_false, List.mem_cons, true_or, if_true]
        rw [hg', get2_set2_same, hVc]
      · have hqct : q ∉ c :: t := by
          simp [List.mem_cons, hqc, hqt]
        simp only [hqt, if_false, hqct, if_false]
        rw [hg', get2_set2_ne N g _ hcvalid hq hqc]

/-- The characterization of a sweep, applied from its initial buffer. -/
theorem sweep_char (N : ℕ) (cells : List (ℤ × ℤ)) (V : Buf → ℤ → ℤ → ℚ) (f : Buf)
    (hvalid : ∀ c ∈ cells, ValidC N c.1 c.2)
    (hnodup : cells.Nodup)
    (hV : ∀ g c, c ∈ cells →
      (∀ q : ℤ × ℤ, ValidC N q.1 q.2 → q ∉ cells → get2 N g q.1 q.2 = get2 N f q.1 q.2) →
      get2 N g c.1 c.2 = get2 N f c.1 c.2 →
      V g c.1 c.2 = V f c.1 c.2) :
    ∀ q : ℤ × ℤ, ValidC N q.1 q.2 →
      get2 N (sweep N cells V f) q.1 q.2 =
        if q ∈ cells then V f q.1 q.2 else get2 N f q.1 q.2 :=
  sweep_char_aux N V f cells hvalid hV cells (fun _ h => h) hnodup f
    (fun _ _ _ => rfl) (fun _ _ => rfl)

/-- A fold over a pair whose components evolve independently splits into two
independent folds. -/
theorem foldl_prod_split {α : Type} (F : Buf → α → Buf) (G : Buf → α → Buf)
    (l : List α) (a b : Buf) :
    l.foldl (fun (pr : Buf × Buf) c => (F pr.1 c, G pr.2 c)) (a, b) =
      (l.foldl F a, l.foldl G b) := by
  induction l generalizing a b with
  | nil => rfl
  | cons c t ih => simp only [List.foldl_cons, ih]

/-! ### Characterization of set_bnd -/

theorem pne {a b c d : ℤ} (h : a ≠ c ∨ b ≠ d) : ((a, b) : ℤ × ℤ) ≠ (c, d) := by
  intro he
  rw [Prod.mk.injEq] at he
  rcases h with h | h
  · exact h he.1
  · exact h he.2

theorem not_mem_rowCells_of_j {N : ℕ} {q : ℤ × ℤ} (h : 1 ≤ q.2 ∧ q.2 ≤ (N : ℤ)) :
    q ∉ rowCells N := by
  intro hq
  rcases mem_rowCells.mp hq with ⟨_, _, h3 | h3⟩ <;> omega

theorem not_mem_colCells_of_i {N : ℕ} {q : ℤ × ℤ} (h : 1 ≤ q.1 ∧ q.1 ≤ (N : ℤ)) :
    q ∉ colCells N := by
  intro hq
  rcases mem_colCells.mp hq with ⟨_, _, h3 | h3⟩ <;> omega


theorem not_mem_rowCells' {N : ℕ} (i j : ℤ) (h1 : 1 ≤ j) (h2 : j ≤ (N : ℤ)) :
    ((i, j) : ℤ × ℤ) ∉ rowCells N :=
  not_mem_rowCells_of_j ⟨h1, h2⟩

theorem not_mem_colCells' {N : ℕ} (i j : ℤ) (h1 : 1 ≤ i) (h2 : i ≤ (N : ℤ)) :
    ((i, j) : ℤ × ℤ) ∉ colCells N :=
  not_mem_colCells_of_i ⟨h1, h2⟩

/-- rowVal only reads row 1 and row N of its buffer. -/
theorem rowVal_congr (N b : ℕ) {g f : Buf} {i : ℤ} (j : ℤ)
    (h1 : get2 N g i 1 = get2 N f i 1)
    (h2 : get2 N g i (N : ℤ) = get2 N f i (N : ℤ)) :
    rowVal N b g i j = rowVal N b f i j := by
  unfold rowVal
  rw [h1, h2]

/-- colVal only reads column 1 and column N of its buffer. -/
theorem colVal_congr (N b : ℕ) {g f : Buf} {j : ℤ} (i : ℤ)
    (h1 : get2 N g 1 j = get2 N f 1 j)
    (h2 : get2 N g (N : ℤ) j = get2 N f (N : ℤ) j) :
    colVal N b g i j = colVal N b f i j := by
  unfold colVal
  rw [h1, h2]

/-- The edge passes, on valid coordinates: left/right edge cells take the
colVal of the original buffer, top/bottom edge cells the rowVal, and every
other cell is untouched. Needs N at least 1 so that the cells read are not
themselves edge cells. -/
theorem bndEdges_char (N b : ℕ) (hN : 1 ≤ N) (f : Buf) :
    ∀ q : ℤ × ℤ, ValidC N q.1 q.2 →
      get2 N (bndEdges N b f) q.1 q.2 =
        if q ∈ colCells N then colVal N b f q.1 q.2
        else if q ∈ rowCells N then rowVal N b f q.1 q.2
        else get2 N f q.1 q.2 := by
  have hN1 : (1 : ℤ) ≤ (N : ℤ) := by exact_mod_cast hN
  have hrow := sweep_char N (rowCells N) (rowVal N b) f
    (fun c hc => valid_rowCells hc) (nodup_rowCells N) ?hVrow
  case hVrow =>
    intro g c hc hout _
    rcases mem_rowCells.mp hc with ⟨h1, h2, _⟩
    refine rowVal_congr N b c.2 ?_ ?_
    · exact hout (c.1, 1) (show ValidC N c.1 1 from ⟨by omega, by omega, by omega, by omega⟩)
        (not_mem_rowCells' c.1 1 (by omega) hN1)
    · exact hout (c.1, (N : ℤ))
        (show ValidC N c.1 (N : ℤ) from ⟨by omega, by omega, by omega, by omega⟩)
        (not_mem_rowCells' c.1 (N : ℤ) hN1 (by omega))
  intro q hq
  have hcol := sweep_char N (colCells N) (colVal N b)
    (sweep N (rowCells N) (rowVal N b) f)
    (fun c hc => valid_colCells hc) (nodup_colCells N) ?hVcol q hq
  case hVcol =>
    intro g c hc hout _
    rcases mem_colCells.mp hc with ⟨h1, h2, _⟩
    refine colVal_congr N b c.1 ?_ ?_
    · exact hout (1, c.2) (show ValidC N 1 c.2 from ⟨by omega, by omega, by omega, by omega⟩)
        (not_mem_colCells' 1 c.2 (by omega) hN1)
    · exact hout ((N : ℤ), c.2)
        (show ValidC N (N : ℤ) c.2 from ⟨by omega, by omega, by omega, by omega⟩)
        (not_mem_colCells' (N : ℤ) c.2 hN1 (by omega))
  unfold bndEdges
  rw [hcol]
  by_cases hqc : q ∈ colCells N
  · rw [if_pos hqc, if_pos hqc]
    rcases mem_colCells.mp hqc with ⟨h1, h2, _⟩
    refine colVal_congr N b q.1 ?_ ?_
    · rw [hrow (1, q.2) (show ValidC N 1 q.2 from ⟨by omega, by omega, by omega, by omega⟩)]
      rw [if_neg (not_mem_rowCells' 1 q.2 (by omega) (by omega))]
    · rw [hrow ((N : ℤ), q.2)
        (show ValidC N (N : ℤ) q.2 from ⟨by omega, by omega, by omega, by omega⟩)]
      rw [if_neg (not_mem_rowCells' (N : ℤ) q.2 (by omega) (by omega))]
  · rw [if_neg hqc, if_neg hqc]
    exact hrow q hq

theorem valid00 (N : ℕ) : ValidC N 0 0 := ⟨le_refl 0, by omega, le_refl 0, by omega⟩

theorem valid0N (N : ℕ) : ValidC N 0 ((N : ℤ) + 1) := ⟨le_refl 0, by omega, by omega, le_refl _⟩

theorem validN0 (N : ℕ) : ValidC N ((N : ℤ) + 1) 0 := ⟨by omega, le_refl _, le_refl 0, by omega⟩

theorem validNN (N : ℕ) : ValidC N ((N : ℤ) + 1) ((N : ℤ) + 1) :=
  ⟨by omega, le_refl _, by omega, le_refl _⟩

/-- The corner writes leave every valid non-corner cell unchanged. -/
theorem bndCorners_ne (N : ℕ) (x : Buf) {i j : ℤ} (hv : ValidC N i j)
    (h1 : ((i, j) : ℤ × ℤ) ≠ (0, 0)) (h2 : ((i, j) : ℤ × ℤ) ≠ (0, (N : ℤ) + 1))
    (h3 : ((i, j) : ℤ × ℤ) ≠ ((N : ℤ) + 1, 0))
    (h4 : ((i, j) : ℤ × ℤ) ≠ ((N : ℤ) + 1, (N : ℤ) + 1)) :
    get2 N (bndCorners N x) i j = get2 N x i j := by
  simp only [bndCorners]
  rw [get2_set2_ne N _ _ (validNN N) hv h4, get2_set2_ne N _ _ (validN0 N) hv h3,
      get2_set2_ne N _ _ (valid0N N) hv h2, get2_set2_ne N _ _ (valid00 N) hv h1]

/-- Corner (0,0) is the average of its two adjacent edge cells of the input. -/
theorem bndCorners_00 (N : ℕ) (x : Buf) :
    get2 N (bndCorners N x) 0 0 = (1 / 2) * (get2 N x 1 0 + get2 N x 0 1) := by
  simp only [bndCorners]
  rw [get2_set2_ne N _ _ (validNN N) (valid00 N) (pne (Or.inl (by omega))),
      get2_set2_ne N _ _ (validN0 N) (valid00 N) (pne (Or.inl (by omega))),
      get2_set2_ne N _ _ (valid0N N) (valid00 N) (pne (Or.inr (by omega))),
      get2_set2_same]

/-- Corner (0,N+1), for N at least 1: the average of its two adjacent edge
cells of the input. -/
theorem bndCorners_0N (N : ℕ) (hN : 1 ≤ N) (x : Buf) :
    get2 N (bndCorners N x) 0 ((N : ℤ) + 1) =
      (1 / 2) * (get2 N x 1 ((N : ℤ) + 1) + get2 N x 0 (N : ℤ)) := by
  have hN1 : (1 : ℤ) ≤ (N : ℤ) := by exact_mod_cast hN
  have v1 : ValidC N 1 ((N : ℤ) + 1) := ⟨by omega, by omega, by omega, le_refl _⟩
  have v2 : ValidC N 0 (N : ℤ) := ⟨le_refl 0, by omega, by omega, by omega⟩
  simp only [bndCorners]
  rw [get2_set2_ne N _ _ (validNN N) (valid0N N) (pne (Or.inl (by omega))),
      get2_set2_ne N _ _ (validN0 N) (valid0N N) (pne (Or.inl (by omega))),
      get2_set2_same,
      get2_set2_ne N _ _ (valid00 N) v1 (pne (Or.inl (by omega))),
      get2_set2_ne N _ _ (valid00 N) v2 (pne (Or.inr (by omega)))]

/-- Corner (N+1,0), for N at least 1: the average of its two adjacent edge
cells of the input. -/
theorem bndCorners_N0 (N : ℕ) (hN : 1 ≤ N) (x : Buf) :
    get2 N (bndCorners N x) ((N : ℤ) + 1) 0 =
      (1 / 2) * (get2 N x (N : ℤ) 0 + get2 N x ((N : ℤ) + 1) 1) := by
  have hN1 : (1 : ℤ) ≤ (N : ℤ) := by exact_mod_cast hN
  have v1 : ValidC N (N : ℤ) 0 := ⟨by omega, by omega, le_refl 0, by omega⟩
  have v2 : ValidC N ((N : ℤ) + 1) 1 := ⟨by omega, le_refl _, by omega, by omega⟩
  simp only [bndCorners]
  rw [get2_set2_ne N _ _ (validNN N) (validN0 N) (pne (Or.inr (by omega))),
      get2_set2_same,
      get2_set2_ne N _ _ (valid0N N) v1 (pne (Or.inl (by omega))),
      get2_set2_ne N _ _ (valid00 N) v1 (pne (Or.inl (by omega))),
      get2_set2_ne N _ _ (valid0N N) v2 (pne (Or.inl (by omega))),
      get2_set2_ne N _ _ (valid00 N) v2 (pne (Or.inl (by omega)))]

/-- Corner (N+1,N+1), for N at least 1: the average of its two adjacent edge
cells of the input. -/
theorem bndCorners_NN (N : ℕ) (hN : 1 ≤ N) (x : Buf) :
    get2 N (bndCorners N x) ((N : ℤ) + 1) ((N : ℤ) + 1) =
      (1 / 2) * (get2 N x (N : ℤ) ((N : ℤ) + 1) + get2 N x ((N : ℤ) + 1) (N : ℤ)) := by
  have hN1 : (1 : ℤ) ≤ (N : ℤ) := by exact_mod_cast hN
  have v1 : ValidC N (N : ℤ) ((N : ℤ) + 1) := ⟨by omega, by omega, by omega, le_refl _⟩
  have v2 : ValidC N ((N : ℤ) + 1) (N : ℤ) := ⟨by omega, le_refl _, by omega, by omega⟩
  simp only [bndCorners]
  rw [get2_set2_same,
      get2_set2_ne N _ _ (validN0 N) v1 (pne (Or.inl (by omega))),
      get2_set2_ne N _ _ (valid0N N) v1 (pne (Or.inl (by omega))),
      get2_set2_ne N _ _ (valid00 N) v1 (pne (Or.inl (by omega))),
      get2_set2_ne N _ _ (validN0 N) v2 (pne (Or.inr (by omega))),
      get2_set2_ne N _ _ (valid0N N) v2 (pne (Or.inl (by omega))),
      get2_set2_ne N _ _ (valid00 N) v2 (pne (Or.inl (by omega)))]

/-- set_bnd leaves every interior cell unchanged. -/
theorem set_bnd_interior (N b : ℕ) (hN : 1 ≤ N) (f : Buf) {i j : ℤ}
    (hi1 : 1 ≤ i) (hi2 : i ≤ (N : ℤ)) (hj1 : 1 ≤ j) (hj2 : j ≤ (N : ℤ)) :
    get2 N (set_bnd N b f) i j = get2 N f i j := by
  have hv : ValidC N i j := ⟨by omega, by omega, by omega, by omega⟩
  unfold set_bnd
  rw [bndCorners_ne N _ hv (pne (Or.inl (by omega))) (pne (Or.inl (by omega)))
    (pne (Or.inr (by omega))) (pne (Or.inr (by omega)))]
  rw [bndEdges_char N b hN f (i, j) hv]
  rw [if_neg (not_mem_colCells' i j hi1 hi2), if_neg (not_mem_rowCells' i j hj1 hj2)]

/-- The top edge after set_bnd: the vertical interior neighbor, negated
exactly for the velocity-y kind. -/
theorem set_bnd_top (N b : ℕ) (hN : 1 ≤ N) (f : Buf) {i : ℤ}
    (hi1 : 1 ≤ i) (hi2 : i ≤ (N : ℤ)) :
    get2 N (set_bnd N b f) i 0 =
      if b = 2 then -(get2 N f i 1) else get2 N f i 1 := by
  have hv : ValidC N i 0 := ⟨by omega, by omega, le_refl 0, by omega⟩
  unfold set_bnd
  rw [bndCorners_ne N _ hv (pne (Or.inl (by omega))) (pne (Or.inr (by omega)))
    (pne (Or.inl (by omega))) (pne (Or.inr (by omega)))]
  rw [bndEdges_char N b hN f (i, 0) hv]
  rw [if_neg (not_mem_colCells' i 0 hi1 hi2),
    if_pos (mem_rowCells.mpr ⟨hi1, hi2, Or.inl rfl⟩)]
  unfold rowVal
  rw [if_pos rfl]

/-- The bottom edge after set_bnd. -/
theorem set_bnd_bottom (N b : ℕ) (hN : 1 ≤ N) (f : Buf) {i : ℤ}
    (hi1 : 1 ≤ i) (hi2 : i ≤ (N : ℤ)) :
    get2 N (set_bnd N b f) i ((N : ℤ) + 1) =
      if b = 2 then -(get2 N f i (N : ℤ)) else get2 N f i (N : ℤ) := by
  have hv : ValidC N i ((N : ℤ) + 1) := ⟨by omega, by omega, by omega, le_refl _⟩
  unfold set_bnd
  rw [bndCorners_ne N _ hv (pne (Or.inl (by omega))) (pne (Or.inl (by omega)))
    (pne (Or.inl (by omega))) (pne (Or.inl (by omega)))]
  rw [bndEdges_char N b hN f (i, (N : ℤ) + 1) hv]
  rw [if_neg (not_mem_colCells' i ((N : ℤ) + 1) hi1 hi2),
    if_pos (mem_rowCells.mpr ⟨hi1, hi2, Or.inr rfl⟩)]
  unfold rowVal
  rw [if_neg (by omega : ¬((N : ℤ) + 1 = 0))]

/-- The left edge after set_bnd: the horizontal interior neighbor, negated
exactly for the velocity-x kind. -/
theorem set_bnd_left (N b : ℕ) (hN : 1 ≤ N) (f : Buf) {j : ℤ}
    (hj1 : 1 ≤ j) (hj2 : j ≤ (N : ℤ)) :
    get2 N (set_bnd N b f) 0 j =
      if b = 1 then -(get2 N f 1 j) else get2 N f 1 j := by
  have hv : ValidC N 0 j := ⟨le_refl 0, by omega, by omega, by omega⟩
  unfold set_bnd
  rw [bndCorners_ne N _ hv (pne (Or.inr (by omega))) (pne (Or.inr (by omega)))
    (pne (Or.inl (by omega))) (pne (Or.inl (by omega)))]
  rw [bndEdges_char N b hN f (0, j) hv]
  rw [if_pos (mem_colCells.mpr ⟨hj1, hj2, Or.inl rfl⟩)]
  unfold colVal
  rw [if_pos rfl]

/-- The right edge after set_bnd. -/
theorem set_bnd_right (N b : ℕ) (hN : 1 ≤ N) (f : Buf) {j : ℤ}
    (hj1 : 1 ≤ j) (hj2 : j ≤ (N : ℤ)) :
    get2 N (set_bnd N b f) ((N : ℤ) + 1) j =
      if b = 1 then -(get2 N f (N : ℤ) j) else get2 N f (N : ℤ) j := by
  have hv : ValidC N ((N : ℤ) + 1) j := ⟨by omega, le_refl _, by omega, by omega⟩
  unfold set_bnd
  rw [bndCorners_ne N _ hv (pne (Or.inr (by omega))) (pne (Or.inr (by omega)))
    (pne (Or.inr (by omega))) (pne (Or.inr (by omega)))]
  rw [bndEdges_char N b hN f ((N : ℤ) + 1, j) hv]
  rw [if_pos (mem_colCells.mpr ⟨hj1, hj2, Or.inr rfl⟩)]
  unfold colVal
  rw [if_neg (by omega : ¬((N : ℤ) + 1 = 0))]

/-- Corner (0,0) of the final buffer is the average of the final values of
its two adjacent edge cells. -/
theorem set_bnd_corner00 (N b : ℕ) (hN : 1 ≤ N) (f : Buf) :
    get2 N (set_bnd N b f) 0 0 =
      (1 / 2) * (get2 N (set_bnd N b f) 1 0 + get2 N (set_bnd N b f) 0 1) := by
  have hN1 : (1 : ℤ) ≤ (N : ℤ) := by exact_mod_cast hN
  have v10 : ValidC N 1 0 := ⟨by omega, by omega, le_refl 0, by omega⟩
  have v01 : ValidC N 0 1 := ⟨le_refl 0, by omega, by omega, by omega⟩
  unfold set_bnd
  rw [bndCorners_00 N _,
    bndCorners_ne N _ v10 (pne (Or.inl (by omega))) (pne (Or.inl (by omega)))
      (pne (Or.inl (by omega))) (pne (Or.inl (by omega))),
    bndCorners_ne N _ v01 (pne (Or.inr (by omega))) (pne (Or.inr (by omega)))
      (pne (Or.inl (by omega))) (pne (Or.inl (by omega)))]

/-- Corner (0,N+1) of the final buffer is the average of the final values of
its two adjacent edge cells. -/
theorem set_bnd_corner0N (N b : ℕ) (hN : 1 ≤ N) (f : Buf) :
    get2 N (set_bnd N b f) 0 ((N : ℤ) + 1) =
      (1 / 2) * (get2 N (set_bnd N b f) 1 ((N : ℤ) + 1) +
        get2 N (set_bnd N b f) 0 (N : ℤ)) := by
  have hN1 : (1 : ℤ) ≤ (N : ℤ) := by exact_mod_cast hN
  have v1 : ValidC N 1 ((N : ℤ) + 1) := ⟨by omega, by omega, by omega, le_refl _⟩
  have v2 : ValidC N 0 (N : ℤ) := ⟨le_refl 0, by omega, by omega, by omega⟩
  unfold set_bnd
  rw [bndCorners_0N N hN _,
    bndCorners_ne N _ v1 (pne (Or.inl (by omega))) (pne (Or.inl (by omega)))
      (pne (Or.inr (by omega))) (pne (Or.inl (by omega))),
    bndCorners_ne N _ v2 (pne (Or.inr (by omega))) (pne (Or.inr (by omega)))
      (pne (Or.inl (by omega))) (pne (Or.inl (by omega)))]

/-- Corner (N+1,0) of the final buffer is the average of the final values of
its two adjacent edge cells. -/
theorem set_bnd_cornerN0 (N b : ℕ) (hN : 1 ≤ N) (f : Buf) :
    get2 N (set_bnd N b f) ((N : ℤ) + 1) 0 =
      (1 / 2) * (get2 N (set_bnd N b f) (N : ℤ) 0 +
        get2 N (set_bnd N b f) ((N : ℤ) + 1) 1) := by
  have hN1 : (1 : ℤ) ≤ (N : ℤ) := by exact_mod_cast hN
  have v1 : ValidC N (N : ℤ) 0 := ⟨by omega, by omega, le_refl 0, by omega⟩
  have v2 : ValidC N ((N : ℤ) + 1) 1 := ⟨by omega, le_refl _, by omega, by omega⟩
  unfold set_bnd
  rw [bndCorners_N0 N hN _,
    bndCorners_ne N _ v1 (pne (Or.inl (by omega))) (pne (Or.inl (by omega)))
      (pne (Or.inl (by omega))) (pne (Or.inl (by omega))),
    bndCorners_ne N _ v2 (pne (Or.inr (by omega))) (pne (Or.inr (by omega)))
      (pne (Or.inr (by omega))) (pne (Or.inr (by omega)))]

/-- Corner (N+1,N+1) of the final buffer is the average of the final values
of its two adjacent edge cells. -/
theorem set_bnd_cornerNN (N b : ℕ) (hN : 1 ≤ N) (f : Buf) :
    get2 N (set_bnd N b f) ((N : ℤ) + 1) ((N : ℤ) + 1) =
      (1 / 2) * (get2 N (set_bnd N b f) (N : ℤ) ((N : ℤ) + 1) +
        get2 N (set_bnd N b f) ((N : ℤ) + 1) (N : ℤ)) := by
  have hN1 : (1 : ℤ) ≤ (N : ℤ) := by exact_mod_cast hN
  have v1 : ValidC N (N : ℤ) ((N : ℤ) + 1) := ⟨by omega, by omega, by omega, le_refl _⟩
  have v2 : ValidC N ((N : ℤ) + 1) (N : ℤ) := ⟨by omega, le_refl _, by omega, by omega⟩
  unfold set_bnd
  rw [bndCorners_NN N hN _,
    bndCorners_ne N _ v1 (pne (Or.inl (by omega))) (pne (Or.inl (by omega)))
      (pne (Or.inr (by omega))) (pne (Or.inl (by omega))),
    bndCorners_ne N _ v2 (pne (Or.inr (by omega))) (pne (Or.inr (by omega)))
      (pne (Or.inr (by omega))) (pne (Or.inr (by omega)))]

/-! ### Projection lemmas for step and the mutating operations -/

theorem step_size (sol : FluidSolver) (iter : ℕ) (fadeRate : ℚ) :
    (sol.step iter fadeRate).size = sol.size := rfl

theorem step_dt (sol : FluidSolver) (iter : ℕ) (fadeRate : ℚ) :
    (sol.step iter fadeRate).dt = sol.dt := rfl

theorem step_diff (sol : FluidSolver) (iter : ℕ) (fadeRate : ℚ) :
    (sol.step iter fadeRate).diff = sol.diff := rfl

theorem step_visc (sol : FluidSolver) (iter : ℕ) (fadeRate : ℚ) :
    (sol.step iter fadeRate).visc = sol.visc := rfl

theorem step_s (sol : FluidSolver) (iter : ℕ) (fadeRate : ℚ) :
    (sol.step iter fadeRate).s =
      diffuse sol.size 0 sol.s sol.density sol.diff sol.dt iter := rfl

theorem step_density (sol : FluidSolver) (iter : ℕ) (fadeRate : ℚ) :
    (sol.step iter fadeRate).density =
      (if 0 < fadeRate then
        fadeBuf ((sol.size + 2) * (sol.size + 2)) fadeRate
          (advect sol.size 0 sol.density
            (diffuse sol.size 0 sol.s sol.density sol.diff sol.dt iter)
            (stepVel sol.size sol.Vx sol.Vy sol.Vx0 sol.Vy0 sol.visc sol.dt iter).1
            (stepVel sol.size sol.Vx sol.Vy sol.Vx0 sol.Vy0 sol.visc sol.dt iter).2.1
            sol.dt)
      else
        advect sol.size 0 sol.density
          (diffuse sol.size 0 sol.s sol.density sol.diff sol.dt iter)
          (stepVel sol.size sol.Vx sol.Vy sol.Vx0 sol.Vy0 sol.visc sol.dt iter).1
          (stepVel sol.size sol.Vx sol.Vy sol.Vx0 sol.Vy0 sol.visc sol.dt iter).2.1
          sol.dt) := rfl

theorem step_Vx (sol : FluidSolver) (iter : ℕ) (fadeRate : ℚ) :
    (sol.step iter fadeRate).Vx =
      (stepVel sol.size sol.Vx sol.Vy sol.Vx0 sol.Vy0 sol.visc sol.dt iter).1 := rfl

theorem step_Vy (sol : FluidSolver) (iter : ℕ) (fadeRate : ℚ) :
    (sol.step iter fadeRate).Vy =
      (stepVel sol.size sol.Vx sol.Vy sol.Vx0 sol.Vy0 sol.visc sol.dt iter).2.1 := rfl

theorem step_Vx0 (sol : FluidSolver) (iter : ℕ) (fadeRate : ℚ) :
    (sol.step iter fadeRate).Vx0 =
      (stepVel sol.size sol.Vx sol.Vy sol.Vx0 sol.Vy0 sol.visc sol.dt iter).2.2.1 := rfl

theorem step_Vy0 (sol : FluidSolver) (iter : ℕ) (fadeRate : ℚ) :
    (sol.step iter fadeRate).Vy0 =
      (stepVel sol.size sol.Vx sol.Vy sol.Vx0 sol.Vy0 sol.visc sol.dt iter).2.2.2 := rfl

/-! ### Zero preservation (the all-zero state is a fixed point) -/

theorem get2_zero {f : Buf} (h : ZeroBuf f) (N : ℕ) (i j : ℤ) : get2 N f i j = 0 := h _

theorem upd_zeroBuf {f : Buf} (h : ZeroBuf f) (k : ℕ) {v : ℚ} (hv : v = 0) :
    ZeroBuf (upd f k v) := by
  intro m
  by_cases hm : m = k
  · subst hm; rw [upd_same, hv]
  · rw [upd_ne _ _ _ _ hm]; exact h m

theorem set2_zeroBuf {f : Buf} (h : ZeroBuf f) (N : ℕ) (i j : ℤ) {v : ℚ} (hv : v = 0) :
    ZeroBuf (set2 N f i j v) := upd_zeroBuf h _ hv

theorem sweep_zero (N : ℕ) (cells : List (ℤ × ℤ)) (V : Buf → ℤ → ℤ → ℚ) {f : Buf}
    (hf : ZeroBuf f) (hV : ∀ g c, c ∈ cells → ZeroBuf g → V g c.1 c.2 = 0) :
    ZeroBuf (sweep N cells V f) :=
  sweep_pointwise N cells V (· = 0) f hf (fun g c hc hg => hV g c hc hg)

theorem rowVal_zero (N b : ℕ) {g : Buf} (hg : ZeroBuf g) (i j : ℤ) :
    rowVal N b g i j = 0 := by
  unfold rowVal
  rw [get2_zero hg, get2_zero hg]
  split <;> split <;> simp

theorem colVal_zero (N b : ℕ) {g : Buf} (hg : ZeroBuf g) (i j : ℤ) :
    colVal N b g i j = 0 := by
  unfold colVal
  rw [get2_zero hg, get2_zero hg]
  split <;> split <;> simp

theorem bndCorners_zero (N : ℕ) {x : Buf} (hx : ZeroBuf x) : ZeroBuf (bndCorners N x) := by
  have avg : ∀ (g : Buf), ZeroBuf g → ∀ a b c d : ℤ,
      (1 / 2 : ℚ) * (get2 N g a b + get2 N g c d) = 0 := by
    intro g hg a b c d
    rw [get2_zero hg, get2_zero hg]
    norm_num
  simp only [bndCorners]
  have h3 := set2_zeroBuf hx N 0 0 (avg x hx 1 0 0 1)
  have h4 := set2_zeroBuf h3 N 0 ((N : ℤ) + 1) (avg _ h3 1 ((N : ℤ) + 1) 0 (N : ℤ))
  have h5 := set2_zeroBuf h4 N ((N : ℤ) + 1) 0 (avg _ h4 (N : ℤ) 0 ((N : ℤ) + 1) 1)
  exact set2_zeroBuf h5 N ((N : ℤ) + 1) ((N : ℤ) + 1)
    (avg _ h5 (N : ℤ) ((N : ℤ) + 1) ((N : ℤ) + 1) (N : ℤ))

theorem bndEdges_zero (N b : ℕ) {f : Buf} (hf : ZeroBuf f) : ZeroBuf (bndEdges N b f) := by
  unfold bndEdges
  exact sweep_zero N _ _ (sweep_zero N _ _ hf (fun g c _ hg => rowVal_zero N b hg c.1 c.2))
    (fun g c _ hg => colVal_zero N b hg c.1 c.2)

theorem set_bnd_zero (N b : ℕ) {f : Buf} (hf : ZeroBuf f) : ZeroBuf (set_bnd N b f) := by
  unfold set_bnd
  exact bndCorners_zero N (bndEdges_zero N b hf)

theorem linVal_zero (N : ℕ) {x0 : Buf} (hx0 : ZeroBuf x0) (a cRecip : ℚ) {x : Buf}
    (hx : ZeroBuf x) (i j : ℤ) : linVal N x0 a cRecip x i j = 0 := by
  unfold linVal
  rw [get2_zero hx0, get2_zero hx, get2_zero hx, get2_zero hx, get2_zero hx]
  ring

theorem lin_solve_zero (N b : ℕ) {x x0 : Buf} (hx : ZeroBuf x) (hx0 : ZeroBuf x0)
    (a c : ℚ) (iter : ℕ) : ZeroBuf (lin_solve N b x x0 a c iter) := by
  induction iter generalizing x with
  | zero => exact hx
  | succ k ih =>
    unfold lin_solve
    exact ih (set_bnd_zero N b
      (sweep_zero N _ _ hx (fun g q _ hg => linVal_zero N hx0 a ((1 : ℚ) / c) hg q.1 q.2)))

theorem diffuse_zero (N b : ℕ) {x x0 : Buf} (hx : ZeroBuf x) (hx0 : ZeroBuf x0)
    (diff dt : ℚ) (iter : ℕ) : ZeroBuf (diffuse N b x x0 diff dt iter) :=
  lin_solve_zero N b hx hx0 _ _ iter

theorem divVal_zero (N : ℕ) {vx vy : Buf} (hx : ZeroBuf vx) (hy : ZeroBuf vy) (i j : ℤ) :
    divVal N vx vy i j = 0 := by
  unfold divVal
  rw [get2_zero hx, get2_zero hx, get2_zero hy, get2_zero hy]
  norm_num

theorem advVal_zero (N : ℕ) {d0 : Buf} (hd0 : ZeroBuf d0) (vx vy : Buf) (dt : ℚ) (i j : ℤ) :
    advVal N d0 vx vy dt i j = 0 := by
  unfold advVal
  simp only [get2_zero hd0]
  ring

theorem advect_zero (N b : ℕ) {d d0 : Buf} (hd : ZeroBuf d) (hd0 : ZeroBuf d0)
    (vx vy : Buf) (dt : ℚ) : ZeroBuf (advect N b d d0 vx vy dt) := by
  unfold advect
  exact set_bnd_zero N b
    (sweep_zero N _ _ hd (fun g c _ _ => advVal_zero N hd0 vx vy dt c.1 c.2))

/-! ### A compositional view of project (the pair folds split) -/

/-- The divergence buffer as left by the first loop of project. -/
def divAfterLoop (N : ℕ) (vx vy dv : Buf) : Buf :=
  sweep N (interiorList N) (fun _ i j => divVal N vx vy i j) dv

/-- The pressure buffer as left by the first loop of project: interior
zeroed. -/
def pZeroed (N : ℕ) (p : Buf) : Buf :=
  sweep N (interiorList N) (fun _ _ _ => 0) p

/-- The pressure buffer after the relaxation solve of project
(a = 1, c = 6). -/
def pressureSolved (N : ℕ) (vx vy p dv : Buf) (iter : ℕ) : Buf :=
  lin_solve N 0 (set_bnd N 0 (pZeroed N p)) (set_bnd N 0 (divAfterLoop N vx vy dv)) 1 6 iter

/-- The gradient-subtraction value for the x velocity component. -/
def gradX (N : ℕ) (p2 g : Buf) (i j : ℤ) : ℚ :=
  get2 N g i j - (1 / 2) * (N : ℚ) * (get2 N p2 (i + 1) j - get2 N p2 (i - 1) j)

/-- The gradient-subtraction value for the y velocity component. -/
def gradY (N : ℕ) (p2 g : Buf) (i j : ℤ) : ℚ :=
  get2 N g i j - (1 / 2) * (N : ℚ) * (get2 N p2 i (j + 1) - get2 N p2 i (j - 1))

/-- project's interleaved pair loops write two distinct buffers, so they
split into independent single-buffer sweeps. -/
theorem project_eq (N : ℕ) (vx vy p dv : Buf) (iter : ℕ) :
    project N vx vy p dv iter =
      (set_bnd N 1 (sweep N (interiorList N) (gradX N (pressureSolved N vx vy p dv iter)) vx),
       set_bnd N 2 (sweep N (interiorList N) (gradY N (pressureSolved N vx vy p dv iter)) vy),
       pressureSolved N vx vy p dv iter,
       set_bnd N 0 (divAfterLoop N vx vy dv)) := by
  have hsplit1 : List.foldl
      (fun (pr : Buf × Buf) c =>
        (set2 N pr.1 c.1 c.2 (divVal N vx vy c.1 c.2), set2 N pr.2 c.1 c.2 0))
      (dv, p) (interiorList N) =
      (List.foldl (fun g c => set2 N g c.1 c.2 (divVal N vx vy c.1 c.2)) dv (interiorList N),
       List.foldl (fun g c => set2 N g c.1 c.2 0) p (interiorList N)) :=
    foldl_prod_split (fun g c => set2 N g c.1 c.2 (divVal N vx vy c.1 c.2))
      (fun g c => set2 N g c.1 c.2 0) (interiorList N) dv p
  have hsplit2 : ∀ p2 : Buf, List.foldl
      (fun (v : Buf × Buf) c =>
        (set2 N v.1 c.1 c.2
          (get2 N v.1 c.1 c.2 -
            (1 / 2) * (N : ℚ) * (get2 N p2 (c.1 + 1) c.2 - get2 N p2 (c.1 - 1) c.2)),
         set2 N v.2 c.1 c.2
          (get2 N v.2 c.1 c.2 -
            (1 / 2) * (N : ℚ) * (get2 N p2 c.1 (c.2 + 1) - get2 N p2 c.1 (c.2 - 1)))))
      (vx, vy) (interiorList N) =
      (List.foldl (fun g c => set2 N g c.1 c.2
          (get2 N g c.1 c.2 -
            (1 / 2) * (N : ℚ) * (get2 N p2 (c.1 + 1) c.2 - get2 N p2 (c.1 - 1) c.2)))
        vx (interiorList N),
       List.foldl (fun g c => set2 N g c.1 c.2
          (get2 N g c.1 c.2 -
            (1 / 2) * (N : ℚ) * (get2 N p2 c.1 (c.2 + 1) - get2 N p2 c.1 (c.2 - 1))))
        vy (interiorList N)) := fun p2 =>
    foldl_prod_split
      (fun g c => set2 N g c.1 c.2
        (get2 N g c.1 c.2 -
          (1 / 2) * (N : ℚ) * (get2 N p2 (c.1 + 1) c.2 - get2 N p2 (c.1 - 1) c.2)))
      (fun g c => set2 N g c.1 c.2
        (get2 N g c.1 c.2 -
          (1 / 2) * (N : ℚ) * (get2 N p2 c.1 (c.2 + 1) - get2 N p2 c.1 (c.2 - 1))))
      (interiorList N) vx vy
  simp only [project, hsplit1]
  rw [hsplit2]
  rfl

theorem project_zero (N : ℕ) {vx vy p dv : Buf} (h1 : ZeroBuf vx) (h2 : ZeroBuf vy)
    (h3 : ZeroBuf p) (h4 : ZeroBuf dv) (iter : ℕ) :
    ZeroBuf (project N vx vy p dv iter).1 ∧ ZeroBuf (project N vx vy p dv iter).2.1 ∧
    ZeroBuf (project N vx vy p dv iter).2.2.1 ∧
    ZeroBuf (project N vx vy p dv iter).2.2.2 := by
  rw [project_eq]
  have hdiv1 : ZeroBuf (set_bnd N 0 (divAfterLoop N vx vy dv)) :=
    set_bnd_zero N 0 (sweep_zero N _ _ h4 (fun g c _ _ => divVal_zero N h1 h2 c.1 c.2))
  have hp2 : ZeroBuf (pressureSolved N vx vy p dv iter) := by
    unfold pressureSolved
    exact lin_solve_zero N 0
      (set_bnd_zero N 0 (sweep_zero N _ _ h3 (fun _ _ _ _ => rfl))) hdiv1 1 6 iter
  refine ⟨?_, ?_, hp2, hdiv1⟩
  · apply set_bnd_zero
    apply sweep_zero N _ _ h1
    intro g c _ hg
    unfold gradX
    rw [get2_zero hg, get2_zero hp2, get2_zero hp2]
    ring
  · apply set_bnd_zero
    apply sweep_zero N _ _ h2
    intro g c _ hg
    unfold gradY
    rw [get2_zero hg, get2_zero hp2, get2_zero hp2]
    ring

theorem stepVel_zero (N : ℕ) {Vx Vy Vx0 Vy0 : Buf} (h1 : ZeroBuf Vx) (h2 : ZeroBuf Vy)
    (h3 : ZeroBuf Vx0) (h4 : ZeroBuf Vy0) (visc dt : ℚ) (iter : ℕ) :
    ZeroBuf (stepVel N Vx Vy Vx0 Vy0 visc dt iter).1 ∧
    ZeroBuf (stepVel N Vx Vy Vx0 Vy0 visc dt iter).2.1 ∧
    ZeroBuf (stepVel N Vx Vy Vx0 Vy0 visc dt iter).2.2.1 ∧
    ZeroBuf (stepVel N Vx Vy Vx0 Vy0 visc dt iter).2.2.2 := by
  simp only [stepVel]
  have hvx0a : ZeroBuf (diffuse N 1 Vx0 Vx visc dt iter) := diffuse_zero N 1 h3 h1 visc dt iter
  have hvy0a : ZeroBuf (diffuse N 2 Vy0 Vy visc dt iter) := diffuse_zero N 2 h4 h2 visc dt iter
  have hpr1 := project_zero N hvx0a hvy0a h1 h2 iter
  exact project_zero N (advect_zero N 1 hpr1.2.2.1 hpr1.1 _ _ dt)
    (advect_zero N 2 hpr1.2.2.2 hpr1.2.1 _ _ dt) hpr1.1 hpr1.2.1 iter

theorem fadeBuf_zero (len : ℕ) (r : ℚ) {d : Buf} (hd : ZeroBuf d) :
    ZeroBuf (fadeBuf len r d) := by
  intro k
  unfold fadeBuf
  rw [hd k]
  simp

theorem step_zero (sol : FluidSolver) (iter : ℕ) (fadeRate : ℚ) (h : ZeroSolver sol) :
    ZeroSolver (sol.step iter fadeRate) := by
  obtain ⟨hs, hd, hvx, hvy, hvx0, hvy0⟩ := h
  have hvel := stepVel_zero sol.size hvx hvy hvx0 hvy0 sol.visc sol.dt iter
  have hs1 : ZeroBuf (diffuse sol.size 0 sol.s sol.density sol.diff sol.dt iter) :=
    diffuse_zero sol.size 0 hs hd sol.diff sol.dt iter
  have hd1 : ZeroBuf (advect sol.size 0 sol.density
      (diffuse sol.size 0 sol.s sol.density sol.diff sol.dt iter)
      (stepVel sol.size sol.Vx sol.Vy sol.Vx0 sol.Vy0 sol.visc sol.dt iter).1
      (stepVel sol.size sol.Vx sol.Vy sol.Vx0 sol.Vy0 sol.visc sol.dt iter).2.1 sol.dt) :=
    advect_zero sol.size 0 hd hs1 _ _ sol.dt
  refine ⟨?_, ?_, hvel.1, hvel.2.1, hvel.2.2.1, hvel.2.2.2⟩
  · rw [step_s]
    exact hs1
  · rw [step_density]
    by_cases hf : 0 < fadeRate
    · rw [if_pos hf]
      exact fadeBuf_zero _ _ hd1
    · rw [if_neg hf]
      exact hd1

/-- C4: zero is a fixed point of the tick. For a solver whose six buffers
are all zero, any sequence of step calls with fade rate 0 (each with an
arbitrary iteration count) leaves every cell of every buffer exactly zero. -/
theorem C4_zero_fixed_point (sol : FluidSolver) (iters : List ℕ) (h : ZeroSolver sol) :
    ZeroSolver (iters.foldl (fun s it => s.step it 0) sol) := by
  induction iters generalizing sol with
  | nil => exact h
  | cons a t ih =>
    rw [List.foldl_cons]
    exact ih _ (step_zero sol a 0 h)

/-- Witness for C4: a concrete all-zero solver at N = 2, stepped twice with
iteration counts 1 and 2, stays all zero. -/
theorem C4_zero_fixed_point_witness :
    ZeroSolver (([1, 2] : List ℕ).foldl (fun s it => s.step it 0)
      (mkSolver 2 (1/2) (1/3) (1/10))) :=
  C4_zero_fixed_point (mkSolver 2 (1/2) (1/3) (1/10)) [1, 2]
    ⟨fun _ => rfl, fun _ => rfl, fun _ => rfl, fun _ => rfl, fun _ => rfl, fun _ => rfl⟩

/-- C3: the coordinate map is total and in bounds. For every integer x and y
(including negative and far out-of-range values), IX clamps x and y
independently into [0, N+1] and returns x + (N+2)*y over the clamped values,
an offset strictly below (N+2)^2, the allocated length of every buffer. -/
theorem C3_IX_total_in_bounds (N : ℕ) (x y : ℤ) :
    IX N x y = (max 0 (min x ((N : ℤ) + 1))).toNat +
      (N + 2) * (max 0 (min y ((N : ℤ) + 1))).toNat ∧
    0 ≤ max 0 (min x ((N : ℤ) + 1)) ∧ max 0 (min x ((N : ℤ) + 1)) ≤ (N : ℤ) + 1 ∧
    0 ≤ max 0 (min y ((N : ℤ) + 1)) ∧ max 0 (min y ((N : ℤ) + 1)) ≤ (N : ℤ) + 1 ∧
    IX N x y < (N + 2) * (N + 2) := by
  have hx0 : (0 : ℤ) ≤ max 0 (min x ((N : ℤ) + 1)) := le_max_left _ _
  have hy0 : (0 : ℤ) ≤ max 0 (min y ((N : ℤ) + 1)) := le_max_left _ _
  have hx1 : max 0 (min x ((N : ℤ) + 1)) ≤ (N : ℤ) + 1 :=
    max_le (by positivity) (min_le_right _ _)
  have hy1 : max 0 (min y ((N : ℤ) + 1)) ≤ (N : ℤ) + 1 :=
    max_le (by positivity) (min_le_right _ _)
  refine ⟨?_, hx0, hx1, hy0, hy1, IX_lt N x y⟩
  have hcast : (((N + 2) * (max 0 (min y ((N : ℤ) + 1))).toNat : ℕ) : ℤ) =
      ((N : ℤ) + 2) * max 0 (min y ((N : ℤ) + 1)) := by
    push_cast [Int.toNat_of_nonneg hy0]
    ring
  unfold IX ixZ
  omega

/-- C1 counterexample: at resolution 0 the spec's validity predicate fails,
yet construction succeeds (the source constructor has no validation). -/
theorem C1_counterexample :
    construct 0 1 1 1 = .ok (mkSolver 0 1 1 1) ∧ ¬ specValidConfig 0 1 1 1 :=
  ⟨rfl, fun h => lt_irrefl 0 h.1⟩

/-- C1 amended: the constructor performs no validation. For every
configuration (any non-negative integer resolution, any rational diffusion
rate, viscosity and time step, valid or not), construction succeeds and
returns the solver with the given scalars and six zero-filled buffers. -/
theorem C1_construct_total (size : ℕ) (diffusion viscosity dt : ℚ) :
    construct size diffusion viscosity dt = .ok (mkSolver size diffusion viscosity dt) ∧
    (mkSolver size diffusion viscosity dt).size = size ∧
    (mkSolver size diffusion viscosity dt).dt = dt ∧
    (mkSolver size diffusion viscosity dt).diff = diffusion ∧
    (mkSolver size diffusion viscosity dt).visc = viscosity ∧
    ZeroSolver (mkSolver size diffusion viscosity dt) :=
  ⟨rfl, rfl, rfl, rfl, rfl,
    fun _ => rfl, fun _ => rfl, fun _ => rfl, fun _ => rfl, fun _ => rfl, fun _ => rfl⟩

/-- C2 counterexample: the reset operation of App.tsx does not zero the work
buffer s. On a solver whose s holds 1 at offset 0, after reset that cell
still holds 1, not 0. -/
theorem C2_counterexample :
    (FluidSolver.reset
      { size := 1, dt := 1, diff := 0, visc := 0,
        s := upd (fun _ => 0) 0 1, density := fun _ => 0,
        Vx := fun _ => 0, Vy := fun _ => 0, Vx0 := fun _ => 0, Vy0 := fun _ => 0 }).s 0 = 1 ∧
    (1 : ℚ) ≠ 0 := by
  constructor
  · show upd (fun _ => 0) 0 1 0 = 1
    exact upd_same _ _ _
  · norm_num

/-- C2 amended: reset zero-fills density, Vx, Vy, Vx0 and Vy0 over the
allocated offsets, and leaves the work buffer s unchanged. -/
theorem C2_reset_five_buffers (sol : FluidSolver) (k : ℕ)
    (hk : k < (sol.size + 2) * (sol.size + 2)) :
    sol.reset.density k = 0 ∧ sol.reset.Vx k = 0 ∧ sol.reset.Vy k = 0 ∧
    sol.reset.Vx0 k = 0 ∧ sol.reset.Vy0 k = 0 ∧ sol.reset.s = sol.s := by
  refine ⟨?_, ?_, ?_, ?_, ?_, rfl⟩ <;>
    · show (if k < (sol.size + 2) * (sol.size + 2) then (0 : ℚ) else _) = 0
      rw [if_pos hk]

/-- Witness for C2's amended theorem at a concrete solver and offset. -/
theorem C2_reset_five_buffers_witness :
    (mkSolver 1 0 0 1).reset.density 0 = 0 ∧ (mkSolver 1 0 0 1).reset.Vx 0 = 0 ∧
    (mkSolver 1 0 0 1).reset.Vy 0 = 0 ∧ (mkSolver 1 0 0 1).reset.Vx0 0 = 0 ∧
    (mkSolver 1 0 0 1).reset.Vy0 0 = 0 ∧ (mkSolver 1 0 0 1).reset.s = (mkSolver 1 0 0 1).s :=
  C2_reset_five_buffers (mkSolver 1 0 0 1) 0 (by decide)

/-- C10: addDensity is total in its coordinates and has a one-cell frame:
the density cell at offset IX(x,y) grows by exactly the amount, every other
density offset is unchanged, the five other buffers are untouched, and the
written offset is inside the allocated range. -/
theorem C10_addDensity_frame (sol : FluidSolver) (x y : ℤ) (amount : ℚ) (m : ℕ)
    (hm : m ≠ IX sol.size x y) :
    (sol.addDensity x y amount).density (IX sol.size x y) =
      sol.density (IX sol.size x y) + amount ∧
    (sol.addDensity x y amount).density m = sol.density m ∧
    (sol.addDensity x y amount).s = sol.s ∧
    (sol.addDensity x y amount).Vx = sol.Vx ∧
    (sol.addDensity x y amount).Vy = sol.Vy ∧
    (sol.addDensity x y amount).Vx0 = sol.Vx0 ∧
    (sol.addDensity x y amount).Vy0 = sol.Vy0 ∧
    (sol.addDensity x y amount).size = sol.size ∧
    IX sol.size x y < (sol.size + 2) * (sol.size + 2) :=
  ⟨upd_same _ _ _, upd_ne _ _ _ _ hm, rfl, rfl, rfl, rfl, rfl, rfl, IX_lt _ _ _⟩

/-- Witness for C10 at far out-of-range coordinates on a concrete solver. -/
theorem C10_addDensity_frame_witness :
    ((mkSolver 2 0 0 1).addDensity (-5) 100 7).density (IX 2 (-5) 100) =
      (mkSolver 2 0 0 1).density (IX 2 (-5) 100) + 7 ∧
    ((mkSolver 2 0 0 1).addDensity (-5) 100 7).density 0 = (mkSolver 2 0 0 1).density 0 ∧
    ((mkSolver 2 0 0 1).addDensity (-5) 100 7).s = (mkSolver 2 0 0 1).s ∧
    ((mkSolver 2 0 0 1).addDensity (-5) 100 7).Vx = (mkSolver 2 0 0 1).Vx ∧
    ((mkSolver 2 0 0 1).addDensity (-5) 100 7).Vy = (mkSolver 2 0 0 1).Vy ∧
    ((mkSolver 2 0 0 1).addDensity (-5) 100 7).Vx0 = (mkSolver 2 0 0 1).Vx0 ∧
    ((mkSolver 2 0 0 1).addDensity (-5) 100 7).Vy0 = (mkSolver 2 0 0 1).Vy0 ∧
    ((mkSolver 2 0 0 1).addDensity (-5) 100 7).size = (mkSolver 2 0 0 1).size ∧
    IX 2 (-5) 100 < (2 + 2) * (2 + 2) :=
  C10_addDensity_frame (mkSolver 2 0 0 1) (-5) 100 7 0 (by decide)

/-! ### Non-negativity preservation for the scalar pipeline -/

theorem get2_nonneg {f : Buf} (h : NonnegBuf f) (N : ℕ) (i j : ℤ) : 0 ≤ get2 N f i j := h _

theorem upd_nonnegBuf {f : Buf} (h : NonnegBuf f) (k : ℕ) {v : ℚ} (hv : 0 ≤ v) :
    NonnegBuf (upd f k v) := by
  intro m
  by_cases hm : m = k
  · subst hm; rw [upd_same]; exact hv
  · rw [upd_ne _ _ _ _ hm]; exact h m

theorem set2_nonnegBuf {f : Buf} (h : NonnegBuf f) (N : ℕ) (i j : ℤ) {v : ℚ} (hv : 0 ≤ v) :
    NonnegBuf (set2 N f i j v) := upd_nonnegBuf h _ hv

theorem sweep_nonneg (N : ℕ) (cells : List (ℤ × ℤ)) (V : Buf → ℤ → ℤ → ℚ) {f : Buf}
    (hf : NonnegBuf f) (hV : ∀ g c, c ∈ cells → NonnegBuf g → 0 ≤ V g c.1 c.2) :
    NonnegBuf (sweep N cells V f) :=
  sweep_pointwise N cells V (0 ≤ ·) f hf (fun g c hc hg => hV g c hc hg)

theorem rowVal_nonneg (N b : ℕ) (hb : b ≠ 2) {g : Buf} (hg : NonnegBuf g) (i j : ℤ) :
    0 ≤ rowVal N b g i j := by
  unfold rowVal
  rw [if_neg hb, if_neg hb]
  split <;> exact hg _

theorem colVal_nonneg (N b : ℕ) (hb : b ≠ 1) {g : Buf} (hg : NonnegBuf g) (i j : ℤ) :
    0 ≤ colVal N b g i j := by
  unfold colVal
  rw [if_neg hb, if_neg hb]
  split <;> exact hg _

theorem bndCorners_nonneg (N : ℕ) {x : Buf} (hx : NonnegBuf x) :
    NonnegBuf (bndCorners N x) := by
  have avg : ∀ (g : Buf), NonnegBuf g → ∀ a b c d : ℤ,
      0 ≤ (1 / 2 : ℚ) * (get2 N g a b + get2 N g c d) := by
    intro g hg a b c d
    have := add_nonneg (get2_nonneg hg N a b) (get2_nonneg hg N c d)
    positivity
  simp only [bndCorners]
  have h3 := set2_nonnegBuf hx N 0 0 (avg x hx 1 0 0 1)
  have h4 := set2_nonnegBuf h3 N 0 ((N : ℤ) + 1) (avg _ h3 1 ((N : ℤ) + 1) 0 (N : ℤ))
  have h5 := set2_nonnegBuf h4 N ((N : ℤ) + 1) 0 (avg _ h4 (N : ℤ) 0 ((N : ℤ) + 1) 1)
  exact set2_nonnegBuf h5 N ((N : ℤ) + 1) ((N : ℤ) + 1)
    (avg _ h5 (N : ℤ) ((N : ℤ) + 1) ((N : ℤ) + 1) (N : ℤ))

theorem set_bnd_nonneg (N b : ℕ) (hb1 : b ≠ 1) (hb2 : b ≠ 2) {f : Buf}
    (hf : NonnegBuf f) : NonnegBuf (set_bnd N b f) := by
  unfold set_bnd bndEdges
  exact bndCorners_nonneg N
    (sweep_nonneg N _ _ (sweep_nonneg N _ _ hf (fun g c _ hg => rowVal_nonneg N b hb2 hg c.1 c.2))
      (fun g c _ hg => colVal_nonneg N b hb1 hg c.1 c.2))

theorem linVal_nonneg (N : ℕ) {x0 : Buf} (hx0 : NonnegBuf x0) {a cRecip : ℚ}
    (ha : 0 ≤ a) (hc : 0 ≤ cRecip) {x : Buf} (hx : NonnegBuf x) (i j : ℤ) :
    0 ≤ linVal N x0 a cRecip x i j := by
  unfold linVal
  have h1 := get2_nonneg hx0 N i j
  have h2 := get2_nonneg hx N (i + 1) j
  have h3 := get2_nonneg hx N (i - 1) j
  have h4 := get2_nonneg hx N i (j + 1)
  have h5 := get2_nonneg hx N i (j - 1)
  have hsum : 0 ≤ get2 N x (i + 1) j + get2 N x (i - 1) j +
      get2 N x i (j + 1) + get2 N x i (j - 1) := by linarith
  exact mul_nonneg (add_nonneg h1 (mul_nonneg ha hsum)) hc

theorem lin_solve_nonneg (N b : ℕ) (hb1 : b ≠ 1) (hb2 : b ≠ 2) {x x0 : Buf}
    (hx : NonnegBuf x) (hx0 : NonnegBuf x0) {a c : ℚ} (ha : 0 ≤ a) (hc : 0 ≤ c)
    (iter : ℕ) : NonnegBuf (lin_solve N b x x0 a c iter) := by
  induction iter generalizing x with
  | zero => exact hx
  | succ k ih =>
    unfold lin_solve
    refine ih (set_bnd_nonneg N b hb1 hb2 (sweep_nonneg N _ _ hx ?_))
    intro g q _ hg
    exact linVal_nonneg N hx0 ha (by positivity) hg q.1 q.2

theorem diffuse_nonneg (N : ℕ) {x x0 : Buf} (hx : NonnegBuf x) (hx0 : NonnegBuf x0)
    {diff dt : ℚ} (hdiff : 0 ≤ diff) (hdt : 0 ≤ dt) (iter : ℕ) :
    NonnegBuf (diffuse N 0 x x0 diff dt iter) := by
  unfold diffuse
  have ha : 0 ≤ dt * diff * ((N : ℚ) - 2) * ((N : ℚ) - 2) := by
    nlinarith [sq_nonneg ((N : ℚ) - 2), mul_nonneg hdt hdiff]
  exact lin_solve_nonneg N 0 (by omega) (by omega) hx hx0 ha (by linarith) iter

/-- The bilinear sample with floor-based weights of a non-negative buffer is
non-negative, for any backtraced position. -/
theorem bilinear_nonneg (N : ℕ) {d0 : Buf} (h : NonnegBuf d0) (u v : ℚ) :
    0 ≤ (1 - (u - ((⌊u⌋ : ℤ) : ℚ))) *
        ((1 - (v - ((⌊v⌋ : ℤ) : ℚ))) * get2 N d0 ⌊u⌋ ⌊v⌋ +
          (v - ((⌊v⌋ : ℤ) : ℚ)) * get2 N d0 ⌊u⌋ (⌊v⌋ + 1)) +
      (u - ((⌊u⌋ : ℤ) : ℚ)) *
        ((1 - (v - ((⌊v⌋ : ℤ) : ℚ))) * get2 N d0 (⌊u⌋ + 1) ⌊v⌋ +
          (v - ((⌊v⌋ : ℤ) : ℚ)) * get2 N d0 (⌊u⌋ + 1) (⌊v⌋ + 1)) := by
  have hu0 : 0 ≤ u - ((⌊u⌋ : ℤ) : ℚ) := sub_nonneg.mpr (Int.floor_le u)
  have hu1 : 0 ≤ 1 - (u - ((⌊u⌋ : ℤ) : ℚ)) := by
    have := Int.lt_floor_add_one u
    have h2 : u - ((⌊u⌋ : ℤ) : ℚ) < 1 := by
      push_cast at this ⊢
      linarith
    linarith
  have hv0 : 0 ≤ v - ((⌊v⌋ : ℤ) : ℚ) := sub_nonneg.mpr (Int.floor_le v)
  have hv1 : 0 ≤ 1 - (v - ((⌊v⌋ : ℤ) : ℚ)) := by
    have := Int.lt_floor_add_one v
    have h2 : v - ((⌊v⌋ : ℤ) : ℚ) < 1 := by
      push_cast at this ⊢
      linarith
    linarith
  have g1 := get2_nonneg h N ⌊u⌋ ⌊v⌋
  have g2 := get2_nonneg h N ⌊u⌋ (⌊v⌋ + 1)
  have g3 := get2_nonneg h N (⌊u⌋ + 1) ⌊v⌋
  have g4 := get2_nonneg h N (⌊u⌋ + 1) (⌊v⌋ + 1)
  have t1 : 0 ≤ (1 - (v - ((⌊v⌋ : ℤ) : ℚ))) * get2 N d0 ⌊u⌋ ⌊v⌋ +
      (v - ((⌊v⌋ : ℤ) : ℚ)) * get2 N d0 ⌊u⌋ (⌊v⌋ + 1) :=
    add_nonneg (mul_nonneg hv1 g1) (mul_nonneg hv0 g2)
  have t2 : 0 ≤ (1 - (v - ((⌊v⌋ : ℤ) : ℚ))) * get2 N d0 (⌊u⌋ + 1) ⌊v⌋ +
      (v - ((⌊v⌋ : ℤ) : ℚ)) * get2 N d0 (⌊u⌋ + 1) (⌊v⌋ + 1) :=
    add_nonneg (mul_nonneg hv1 g3) (mul_nonneg hv0 g4)
  exact add_nonneg (mul_nonneg hu1 t1) (mul_nonneg hu0 t2)

theorem advVal_nonneg (N : ℕ) {d0 : Buf} (h : NonnegBuf d0) (vx vy : Buf) (dt : ℚ)
    (i j : ℤ) : 0 ≤ advVal N d0 vx vy dt i j := by
  unfold advVal
  exact bilinear_nonneg N h _ _

theorem advect_nonneg (N : ℕ) {d d0 : Buf} (hd : NonnegBuf d) (hd0 : NonnegBuf d0)
    (vx vy : Buf) (dt : ℚ) : NonnegBuf (advect N 0 d d0 vx vy dt) := by
  unfold advect
  exact set_bnd_nonneg N 0 (by omega) (by omega)
    (sweep_nonneg N _ _ hd (fun g q _ _ => advVal_nonneg N hd0 vx vy dt q.1 q.2))

theorem fadeBuf_nonneg (len : ℕ) (r : ℚ) {d : Buf} (hd : NonnegBuf d) :
    NonnegBuf (fadeBuf len r d) := by
  intro k
  unfold fadeBuf
  split
  · exact le_max_left 0 _
  · exact hd k

/-- C9: non-negativity of density and the work buffer s is an invariant of
the tick. For every solver state with non-negative density and s, any
non-negative time step and diffusion rate, any iteration count and any fade
rate in [0,1], the density and s buffers after step are still non-negative,
regardless of the velocity buffers' values. -/
theorem C9_step_nonneg (sol : FluidSolver) (iter : ℕ) (fadeRate : ℚ)
    (hdt : 0 ≤ sol.dt) (hdiff : 0 ≤ sol.diff) (hf0 : 0 ≤ fadeRate) (hf1 : fadeRate ≤ 1)
    (hd : NonnegBuf sol.density) (hs : NonnegBuf sol.s) :
    NonnegBuf (sol.step iter fadeRate).density ∧ NonnegBuf (sol.step iter fadeRate).s := by
  have hs1 : NonnegBuf (diffuse sol.size 0 sol.s sol.density sol.diff sol.dt iter) :=
    diffuse_nonneg sol.size hs hd hdiff hdt iter
  have hd1 : NonnegBuf (advect sol.size 0 sol.density
      (diffuse sol.size 0 sol.s sol.density sol.diff sol.dt iter)
      (stepVel sol.size sol.Vx sol.Vy sol.Vx0 sol.Vy0 sol.visc sol.dt iter).1
      (stepVel sol.size sol.Vx sol.Vy sol.Vx0 sol.Vy0 sol.visc sol.dt iter).2.1 sol.dt) :=
    advect_nonneg sol.size hd hs1 _ _ sol.dt
  constructor
  · rw [step_density]
    by_cases hfp : 0 < fadeRate
    · rw [if_pos hfp]
      exact fadeBuf_nonneg _ _ hd1
    · rw [if_neg hfp]
      exact hd1
  · rw [step_s]
    exact hs1

/-- Witness for C9 at a concrete solver state. -/
theorem C9_step_nonneg_witness :
    NonnegBuf ((mkSolver 1 0 0 1).step 1 (1/2)).density ∧
    NonnegBuf ((mkSolver 1 0 0 1).step 1 (1/2)).s :=
  C9_step_nonneg (mkSolver 1 0 0 1) 1 (1/2) (show (0 : ℚ) ≤ 1 by norm_num)
    (le_refl 0) (by norm_num) (by norm_num) (fun _ => le_refl 0) (fun _ => le_refl 0)

/-- C6: the boundary policy. After set_bnd, for the velocity-x kind (b = 1)
the left and right boundary columns are the negation of their adjacent
interior columns; for the velocity-y kind (b = 2) the top and bottom
boundary rows are the negation of their adjacent interior rows; for the
scalar kind (b = 0) every edge boundary cell equals its single interior
neighbor unchanged; and for each of the three kinds every corner cell is
the average of its two adjacent edge cells. -/
theorem C6_set_bnd_policy (N : ℕ) (f : Buf) (i j : ℤ) (hN : 1 ≤ N)
    (hi1 : 1 ≤ i) (hi2 : i ≤ (N : ℤ)) (hj1 : 1 ≤ j) (hj2 : j ≤ (N : ℤ)) :
    (get2 N (set_bnd N 1 f) 0 j = -(get2 N (set_bnd N 1 f) 1 j) ∧
     get2 N (set_bnd N 1 f) ((N : ℤ) + 1) j = -(get2 N (set_bnd N 1 f) (N : ℤ) j)) ∧
    (get2 N (set_bnd N 2 f) i 0 = -(get2 N (set_bnd N 2 f) i 1) ∧
     get2 N (set_bnd N 2 f) i ((N : ℤ) + 1) = -(get2 N (set_bnd N 2 f) i (N : ℤ))) ∧
    (get2 N (set_bnd N 0 f) 0 j = get2 N (set_bnd N 0 f) 1 j ∧
     get2 N (set_bnd N 0 f) ((N : ℤ) + 1) j = get2 N (set_bnd N 0 f) (N : ℤ) j ∧
     get2 N (set_bnd N 0 f) i 0 = get2 N (set_bnd N 0 f) i 1 ∧
     get2 N (set_bnd N 0 f) i ((N : ℤ) + 1) = get2 N (set_bnd N 0 f) i (N : ℤ)) ∧
    (∀ b, b = 0 ∨ b = 1 ∨ b = 2 →
      get2 N (set_bnd N b f) 0 0 =
        (1 / 2) * (get2 N (set_bnd N b f) 1 0 + get2 N (set_bnd N b f) 0 1) ∧
      get2 N (set_bnd N b f) 0 ((N : ℤ) + 1) =
        (1 / 2) * (get2 N (set_bnd N b f) 1 ((N : ℤ) + 1) +
          get2 N (set_bnd N b f) 0 (N : ℤ)) ∧
      get2 N (set_bnd N b f) ((N : ℤ) + 1) 0 =
        (1 / 2) * (get2 N (set_bnd N b f) (N : ℤ) 0 +
          get2 N (set_bnd N b f) ((N : ℤ) + 1) 1) ∧
      get2 N (set_bnd N b f) ((N : ℤ) + 1) ((N : ℤ) + 1) =
        (1 / 2) * (get2 N (set_bnd N b f) (N : ℤ) ((N : ℤ) + 1) +
          get2 N (set_bnd N b f) ((N : ℤ) + 1) (N : ℤ))) := by
  have hN1 : (1 : ℤ) ≤ (N : ℤ) := by exact_mod_cast hN
  refine ⟨⟨?_, ?_⟩, ⟨?_, ?_⟩, ⟨?_, ?_, ?_, ?_⟩, ?_⟩
  · rw [set_bnd_left N 1 hN f hj1 hj2, if_pos rfl,
      set_bnd_interior N 1 hN f (le_refl 1) hN1 hj1 hj2]
  · rw [set_bnd_right N 1 hN f hj1 hj2, if_pos rfl,
      set_bnd_interior N 1 hN f hN1 (le_refl _) hj1 hj2]
  · rw [set_bnd_top N 2 hN f hi1 hi2, if_pos rfl,
      set_bnd_interior N 2 hN f hi1 hi2 (le_refl 1) hN1]
  · rw [set_bnd_bottom N 2 hN f hi1 hi2, if_pos rfl,
      set_bnd_interior N 2 hN f hi1 hi2 hN1 (le_refl _)]
  · rw [set_bnd_left N 0 hN f hj1 hj2, if_neg (by omega : ¬(0 : ℕ) = 1),
      set_bnd_interior N 0 hN f (le_refl 1) hN1 hj1 hj2]
  · rw [set_bnd_right N 0 hN f hj1 hj2, if_neg (by omega : ¬(0 : ℕ) = 1),
      set_bnd_interior N 0 hN f hN1 (le_refl _) hj1 hj2]
  · rw [set_bnd_top N 0 hN f hi1 hi2, if_neg (by omega : ¬(0 : ℕ) = 2),
      set_bnd_interior N 0 hN f hi1 hi2 (le_refl 1) hN1]
  · rw [set_bnd_bottom N 0 hN f hi1 hi2, if_neg (by omega : ¬(0 : ℕ) = 2),
      set_bnd_interior N 0 hN f hi1 hi2 hN1 (le_refl _)]
  · intro b _
    exact ⟨set_bnd_corner00 N b hN f, set_bnd_corner0N N b hN f,
      set_bnd_cornerN0 N b hN f, set_bnd_cornerNN N b hN f⟩

/-- Witness for C6 at N = 1, the zero buffer and the single interior cell. -/
theorem C6_set_bnd_policy_witness :
    (get2 1 (set_bnd 1 1 (fun _ => 0)) 0 1 = -(get2 1 (set_bnd 1 1 (fun _ => 0)) 1 1) ∧
     get2 1 (set_bnd 1 1 (fun _ => 0)) ((1 : ℤ) + 1) 1 =
       -(get2 1 (set_bnd 1 1 (fun _ => 0)) (1 : ℤ) 1)) ∧
    (get2 1 (set_bnd 1 2 (fun _ => 0)) 1 0 = -(get2 1 (set_bnd 1 2 (fun _ => 0)) 1 1) ∧
     get2 1 (set_bnd 1 2 (fun _ => 0)) 1 ((1 : ℤ) + 1) =
       -(get2 1 (set_bnd 1 2 (fun _ => 0)) 1 (1 : ℤ))) ∧
    (get2 1 (set_bnd 1 0 (fun _ => 0)) 0 1 = get2 1 (set_bnd 1 0 (fun _ => 0)) 1 1 ∧
     get2 1 (set_bnd 1 0 (fun _ => 0)) ((1 : ℤ) + 1) 1 =
       get2 1 (set_bnd 1 0 (fun _ => 0)) (1 : ℤ) 1 ∧
     get2 1 (set_bnd 1 0 (fun _ => 0)) 1 0 = get2 1 (set_bnd 1 0 (fun _ => 0)) 1 1 ∧
     get2 1 (set_bnd 1 0 (fun _ => 0)) 1 ((1 : ℤ) + 1) =
       get2 1 (set_bnd 1 0 (fun _ => 0)) 1 (1 : ℤ)) ∧
    (∀ b, b = 0 ∨ b = 1 ∨ b = 2 →
      get2 1 (set_bnd 1 b (fun _ => 0)) 0 0 =
        (1 / 2) * (get2 1 (set_bnd 1 b (fun _ => 0)) 1 0 +
          get2 1 (set_bnd 1 b (fun _ => 0)) 0 1) ∧
      get2 1 (set_bnd 1 b (fun _ => 0)) 0 ((1 : ℤ) + 1) =
        (1 / 2) * (get2 1 (set_bnd 1 b (fun _ => 0)) 1 ((1 : ℤ) + 1) +
          get2 1 (set_bnd 1 b (fun _ => 0)) 0 (1 : ℤ)) ∧
      get2 1 (set_bnd 1 b (fun _ => 0)) ((1 : ℤ) + 1) 0 =
        (1 / 2) * (get2 1 (set_bnd 1 b (fun _ => 0)) (1 : ℤ) 0 +
          get2 1 (set_bnd 1 b (fun _ => 0)) ((1 : ℤ) + 1) 1) ∧
      get2 1 (set_bnd 1 b (fun _ => 0)) ((1 : ℤ) + 1) ((1 : ℤ) + 1) =
        (1 / 2) * (get2 1 (set_bnd 1 b (fun _ => 0)) (1 : ℤ) ((1 : ℤ) + 1) +
          get2 1 (set_bnd 1 b (fun _ => 0)) ((1 : ℤ) + 1) (1 : ℤ))) :=
  C6_set_bnd_policy 1 (fun _ => 0) 1 1 (le_refl 1) (by decide) (by decide) (by decide)
    (by decide)

/-! ### Interior-copy sweeps (diffusion with a = 0, advection with zero
velocity) followed by set_bnd: full characterization on valid coordinates -/

theorem copyBnd_sweep (N : ℕ) (x x0 : Buf) (V : Buf → ℤ → ℤ → ℚ)
    (hVal : ∀ g i j, 1 ≤ i → i ≤ (N : ℤ) → 1 ≤ j → j ≤ (N : ℤ) →
      V g i j = get2 N x0 i j) :
    ∀ q : ℤ × ℤ, ValidC N q.1 q.2 →
      get2 N (sweep N (interiorList N) V x) q.1 q.2 =
        if q ∈ interiorList N then get2 N x0 q.1 q.2 else get2 N x q.1 q.2 := by
  have hchar := sweep_char N (interiorList N) V x (fun c hc => valid_interior hc)
    (nodup_interiorList N) ?hV
  case hV =>
    intro g c hc _ _
    rcases mem_interiorList.mp hc with ⟨h1, h2, h3, h4⟩
    rw [hVal g c.1 c.2 h1 h2 h3 h4, hVal x c.1 c.2 h1 h2 h3 h4]
  intro q hq
  rw [hchar q hq]
  by_cases h : q ∈ interiorList N
  · rw [if_pos h, if_pos h]
    rcases mem_interiorList.mp h with ⟨h1, h2, h3, h4⟩
    rw [hVal x q.1 q.2 h1 h2 h3 h4]
  · rw [if_neg h, if_neg h]

theorem copyBnd_interior (N b : ℕ) (hN : 1 ≤ N) (x x0 : Buf) (V : Buf → ℤ → ℤ → ℚ)
    (hVal : ∀ g i j, 1 ≤ i → i ≤ (N : ℤ) → 1 ≤ j → j ≤ (N : ℤ) →
      V g i j = get2 N x0 i j)
    {i j : ℤ} (hi1 : 1 ≤ i) (hi2 : i ≤ (N : ℤ)) (hj1 : 1 ≤ j) (hj2 : j ≤ (N : ℤ)) :
    get2 N (set_bnd N b (sweep N (interiorList N) V x)) i j = get2 N x0 i j := by
  rw [set_bnd_interior N b hN _ hi1 hi2 hj1 hj2]
  rw [copyBnd_sweep N x x0 V hVal (i, j) ⟨by omega, by omega, by omega, by omega⟩]
  rw [if_pos (mem_interiorList.mpr ⟨hi1, hi2, hj1, hj2⟩)]

theorem copyBnd_top (N b : ℕ) (hN : 1 ≤ N) (x x0 : Buf) (V : Buf → ℤ → ℤ → ℚ)
    (hVal : ∀ g i j, 1 ≤ i → i ≤ (N : ℤ) → 1 ≤ j → j ≤ (N : ℤ) →
      V g i j = get2 N x0 i j)
    {i : ℤ} (hi1 : 1 ≤ i) (hi2 : i ≤ (N : ℤ)) :
    get2 N (set_bnd N b (sweep N (interiorList N) V x)) i 0 =
      if b = 2 then -(get2 N x0 i 1) else get2 N x0 i 1 := by
  have hN1 : (1 : ℤ) ≤ (N : ℤ) := by exact_mod_cast hN
  rw [set_bnd_top N b hN _ hi1 hi2]
  rw [copyBnd_sweep N x x0 V hVal (i, 1) ⟨by omega, by omega, by omega, by omega⟩]
  rw [if_pos (mem_interiorList.mpr ⟨hi1, hi2, le_refl 1, hN1⟩)]

theorem copyBnd_bottom (N b : ℕ) (hN : 1 ≤ N) (x x0 : Buf) (V : Buf → ℤ → ℤ → ℚ)
    (hVal : ∀ g i j, 1 ≤ i → i ≤ (N : ℤ) → 1 ≤ j → j ≤ (N : ℤ) →
      V g i j = get2 N x0 i j)
    {i : ℤ} (hi1 : 1 ≤ i) (hi2 : i ≤ (N : ℤ)) :
    get2 N (set_bnd N b (sweep N (interiorList N) V x)) i ((N : ℤ) + 1) =
      if b = 2 then -(get2 N x0 i (N : ℤ)) else get2 N x0 i (N : ℤ) := by
  have hN1 : (1 : ℤ) ≤ (N : ℤ) := by exact_mod_cast hN
  rw [set_bnd_bottom N b hN _ hi1 hi2]
  rw [copyBnd_sweep N x x0 V hVal (i, (N : ℤ)) ⟨by omega, by omega, by omega, by omega⟩]
  rw [if_pos (mem_interiorList.mpr ⟨hi1, hi2, hN1, le_refl _⟩)]

theorem copyBnd_left (N b : ℕ) (hN : 1 ≤ N) (x x0 : Buf) (V : Buf → ℤ → ℤ → ℚ)
    (hVal : ∀ g i j, 1 ≤ i → i ≤ (N : ℤ) → 1 ≤ j → j ≤ (N : ℤ) →
      V g i j = get2 N x0 i j)
    {j : ℤ} (hj1 : 1 ≤ j) (hj2 : j ≤ (N : ℤ)) :
    get2 N (set_bnd N b (sweep N (interiorList N) V x)) 0 j =
      if b = 1 then -(get2 N x0 1 j) else get2 N x0 1 j := by
  have hN1 : (1 : ℤ) ≤ (N : ℤ) := by exact_mod_cast hN
  rw [set_bnd_left N b hN _ hj1 hj2]
  rw [copyBnd_sweep N x x0 V hVal (1, j) ⟨by omega, by omega, by omega, by omega⟩]
  rw [if_pos (mem_interiorList.mpr ⟨le_refl 1, hN1, hj1, hj2⟩)]

theorem copyBnd_right (N b : ℕ) (hN : 1 ≤ N) (x x0 : Buf) (V : Buf → ℤ → ℤ → ℚ)
    (hVal : ∀ g i j, 1 ≤ i → i ≤ (N : ℤ) → 1 ≤ j → j ≤ (N : ℤ) →
      V g i j = get2 N x0 i j)
    {j : ℤ} (hj1 : 1 ≤ j) (hj2 : j ≤ (N : ℤ)) :
    get2 N (set_bnd N b (sweep N (interiorList N) V x)) ((N : ℤ) + 1) j =
      if b = 1 then -(get2 N x0 (N : ℤ) j) else get2 N x0 (N : ℤ) j := by
  have hN1 : (1 : ℤ) ≤ (N : ℤ) := by exact_mod_cast hN
  rw [set_bnd_right N b hN _ hj1 hj2]
  rw [copyBnd_sweep N x x0 V hVal ((N : ℤ), j) ⟨by omega, by omega, by omega, by omega⟩]
  rw [if_pos (mem_interiorList.mpr ⟨hN1, le_refl _, hj1, hj2⟩)]

theorem copyBnd_corner00 (N b : ℕ) (hN : 1 ≤ N) (x x0 : Buf) (V : Buf → ℤ → ℤ → ℚ)
    (hVal : ∀ g i j, 1 ≤ i → i ≤ (N : ℤ) → 1 ≤ j → j ≤ (N : ℤ) →
      V g i j = get2 N x0 i j) :
    get2 N (set_bnd N b (sweep N (interiorList N) V x)) 0 0 =
      (1 / 2) * ((if b = 2 then -(get2 N x0 1 1) else get2 N x0 1 1) +
        (if b = 1 then -(get2 N x0 1 1) else get2 N x0 1 1)) := by
  have hN1 : (1 : ℤ) ≤ (N : ℤ) := by exact_mod_cast hN
  rw [set_bnd_corner00 N b hN _]
  rw [copyBnd_top N b hN x x0 V hVal (le_refl 1) hN1,
    copyBnd_left N b hN x x0 V hVal (le_refl 1) hN1]

theorem copyBnd_corner0N (N b : ℕ) (hN : 1 ≤ N) (x x0 : Buf) (V : Buf → ℤ → ℤ → ℚ)
    (hVal : ∀ g i j, 1 ≤ i → i ≤ (N : ℤ) → 1 ≤ j → j ≤ (N : ℤ) →
      V g i j = get2 N x0 i j) :
    get2 N (set_bnd N b (sweep N (interiorList N) V x)) 0 ((N : ℤ) + 1) =
      (1 / 2) * ((if b = 2 then -(get2 N x0 1 (N : ℤ)) else get2 N x0 1 (N : ℤ)) +
        (if b = 1 then -(get2 N x0 1 (N : ℤ)) else get2 N x0 1 (N : ℤ))) := by
  have hN1 : (1 : ℤ) ≤ (N : ℤ) := by exact_mod_cast hN
  rw [set_bnd_corner0N N b hN _]
  rw [copyBnd_bottom N b hN x x0 V hVal (le_refl 1) hN1,
    copyBnd_left N b hN x x0 V hVal hN1 (le_refl _)]

theorem copyBnd_cornerN0 (N b : ℕ) (hN : 1 ≤ N) (x x0 : Buf) (V : Buf → ℤ → ℤ → ℚ)
    (hVal : ∀ g i j, 1 ≤ i → i ≤ (N : ℤ) → 1 ≤ j → j ≤ (N : ℤ) →
      V g i j = get2 N x0 i j) :
    get2 N (set_bnd N b (sweep N (interiorList N) V x)) ((N : ℤ) + 1) 0 =
      (1 / 2) * ((if b = 2 then -(get2 N x0 (N : ℤ) 1) else get2 N x0 (N : ℤ) 1) +
        (if b = 1 then -(get2 N x0 (N : ℤ) 1) else get2 N x0 (N : ℤ) 1)) := by
  have hN1 : (1 : ℤ) ≤ (N : ℤ) := by exact_mod_cast hN
  rw [set_bnd_cornerN0 N b hN _]
  rw [copyBnd_top N b hN x x0 V hVal hN1 (le_refl _),
    copyBnd_right N b hN x x0 V hVal (le_refl 1) hN1]

theorem copyBnd_cornerNN (N b : ℕ) (hN : 1 ≤ N) (x x0 : Buf) (V : Buf → ℤ → ℤ → ℚ)
    (hVal : ∀ g i j, 1 ≤ i → i ≤ (N : ℤ) → 1 ≤ j → j ≤ (N : ℤ) →
      V g i j = get2 N x0 i j) :
    get2 N (set_bnd N b (sweep N (interiorList N) V x)) ((N : ℤ) + 1) ((N : ℤ) + 1) =
      (1 / 2) * ((if b = 2 then -(get2 N x0 (N : ℤ) (N : ℤ)) else get2 N x0 (N : ℤ) (N : ℤ)) +
        (if b = 1 then -(get2 N x0 (N : ℤ) (N : ℤ)) else get2 N x0 (N : ℤ) (N : ℤ))) := by
  have hN1 : (1 : ℤ) ≤ (N : ℤ) := by exact_mod_cast hN
  rw [set_bnd_cornerNN N b hN _]
  rw [copyBnd_bottom N b hN x x0 V hVal hN1 (le_refl _),
    copyBnd_right N b hN x x0 V hVal hN1 (le_refl _)]

/-- Two interior-copy-then-set_bnd buffers built from the same x0 agree on
every valid coordinate, whatever the initial buffers and value functions. -/
theorem copyBnd_indep (N b : ℕ) (hN : 1 ≤ N) (x x' x0 : Buf)
    (V V' : Buf → ℤ → ℤ → ℚ)
    (hVal : ∀ g i j, 1 ≤ i → i ≤ (N : ℤ) → 1 ≤ j → j ≤ (N : ℤ) →
      V g i j = get2 N x0 i j)
    (hVal' : ∀ g i j, 1 ≤ i → i ≤ (N : ℤ) → 1 ≤ j → j ≤ (N : ℤ) →
      V' g i j = get2 N x0 i j) :
    ∀ q : ℤ × ℤ, ValidC N q.1 q.2 →
      get2 N (set_bnd N b (sweep N (interiorList N) V x)) q.1 q.2 =
        get2 N (set_bnd N b (sweep N (interiorList N) V' x')) q.1 q.2 := by
  rintro ⟨i, j⟩ ⟨h1, h2, h3, h4⟩
  rcases show i = 0 ∨ (1 ≤ i ∧ i ≤ (N : ℤ)) ∨ i = (N : ℤ) + 1 by omega with hi | ⟨hi1, hi2⟩ | hi
  · subst hi
    rcases show j = 0 ∨ (1 ≤ j ∧ j ≤ (N : ℤ)) ∨ j = (N : ℤ) + 1 by omega with hj | ⟨hj1, hj2⟩ | hj
    · subst hj
      rw [copyBnd_corner00 N b hN x x0 V hVal, copyBnd_corner00 N b hN x' x0 V' hVal']
    · rw [copyBnd_left N b hN x x0 V hVal hj1 hj2, copyBnd_left N b hN x' x0 V' hVal' hj1 hj2]
    · subst hj
      rw [copyBnd_corner0N N b hN x x0 V hVal, copyBnd_corner0N N b hN x' x0 V' hVal']
  · rcases show j = 0 ∨ (1 ≤ j ∧ j ≤ (N : ℤ)) ∨ j = (N : ℤ) + 1 by omega with hj | ⟨hj1, hj2⟩ | hj
    · subst hj
      rw [copyBnd_top N b hN x x0 V hVal hi1 hi2, copyBnd_top N b hN x' x0 V' hVal' hi1 hi2]
    · rw [copyBnd_interior N b hN x x0 V hVal hi1 hi2 hj1 hj2,
        copyBnd_interior N b hN x' x0 V' hVal' hi1 hi2 hj1 hj2]
    · subst hj
      rw [copyBnd_bottom N b hN x x0 V hVal hi1 hi2,
        copyBnd_bottom N b hN x' x0 V' hVal' hi1 hi2]
  · subst hi
    rcases show j = 0 ∨ (1 ≤ j ∧ j ≤ (N : ℤ)) ∨ j = (N : ℤ) + 1 by omega with hj | ⟨hj1, hj2⟩ | hj
    · subst hj
      rw [copyBnd_cornerN0 N b hN x x0 V hVal, copyBnd_cornerN0 N b hN x' x0 V' hVal']
    · rw [copyBnd_right N b hN x x0 V hVal hj1 hj2,
        copyBnd_right N b hN x' x0 V' hVal' hj1 hj2]
    · subst hj
      rw [copyBnd_cornerNN N b hN x x0 V hVal, copyBnd_cornerNN N b hN x' x0 V' hVal']

/-! ### Diffusion with a = 0 and advection with zero velocity -/

theorem linVal_a0 (N : ℕ) (x0 : Buf) (g : Buf) (i j : ℤ) :
    linVal N x0 0 (1 / 1) g i j = get2 N x0 i j := by
  unfold linVal
  norm_num

theorem diffuse_diff0 (N b : ℕ) (x x0 : Buf) (dt : ℚ) (iter : ℕ) :
    diffuse N b x x0 0 dt iter = lin_solve N b x x0 0 1 iter := by
  unfold diffuse
  norm_num

/-- With a = 0 the relaxation solve copies x0 onto the interior and derives
the ring from it; any number of iterations beyond the first changes nothing
on valid coordinates. -/
theorem lin_solve_a0_char (N b : ℕ) (hN : 1 ≤ N) (x x0 : Buf) (k : ℕ) :
    ∀ q : ℤ × ℤ, ValidC N q.1 q.2 →
      get2 N (lin_solve N b x x0 0 1 (k + 1)) q.1 q.2 =
        get2 N (set_bnd N b (sweep N (interiorList N) (linVal N x0 0 (1 / 1)) x)) q.1 q.2 := by
  induction k generalizing x with
  | zero => intro q _; rfl
  | succ m ih =>
    intro q hq
    have hstep : lin_solve N b x x0 0 1 (m + 1 + 1) =
        lin_solve N b (set_bnd N b (sweep N (interiorList N) (linVal N x0 0 (1 / 1)) x))
          x0 0 1 (m + 1) := rfl
    rw [hstep, ih _ q hq]
    exact copyBnd_indep N b hN _ x x0 _ _
      (fun g i j _ _ _ _ => linVal_a0 N x0 g i j)
      (fun g i j _ _ _ _ => linVal_a0 N x0 g i j) q hq

/-- diffuse with diffusion rate 0 and at least one iteration: every interior
cell becomes the corresponding x0 cell. -/
theorem diffuse0_interior (N b : ℕ) (hN : 1 ≤ N) (x x0 : Buf) (dt : ℚ) (k : ℕ)
    {i j : ℤ} (hi1 : 1 ≤ i) (hi2 : i ≤ (N : ℤ)) (hj1 : 1 ≤ j) (hj2 : j ≤ (N : ℤ)) :
    get2 N (diffuse N b x x0 0 dt (k + 1)) i j = get2 N x0 i j := by
  rw [diffuse_diff0]
  rw [lin_solve_a0_char N b hN x x0 k (i, j) ⟨by omega, by omega, by omega, by omega⟩]
  exact copyBnd_interior N b hN x x0 _ (fun g i j _ _ _ _ => linVal_a0 N x0 g i j)
    hi1 hi2 hj1 hj2

/-- The advection sample at an interior cell where both velocity reads are
zero is exactly the d0 value at that cell. -/
theorem advVal_zero_vel (N : ℕ) (d0 : Buf) {vx vy : Buf} (hvx : ZeroBuf vx)
    (hvy : ZeroBuf vy) (dt : ℚ) {i j : ℤ} (hi1 : 1 ≤ i) (hi2 : i ≤ (N : ℤ))
    (hj1 : 1 ≤ j) (hj2 : j ≤ (N : ℤ)) :
    advVal N d0 vx vy dt i j = get2 N d0 i j := by
  have hi1' : (1 : ℚ) ≤ (i : ℚ) := by exact_mod_cast hi1
  have hi2' : (i : ℚ) ≤ (N : ℚ) := by exact_mod_cast hi2
  have hj1' : (1 : ℚ) ≤ (j : ℚ) := by exact_mod_cast hj1
  have hj2' : (j : ℚ) ≤ (N : ℚ) := by exact_mod_cast hj2
  simp only [advVal, get2_zero hvx, get2_zero hvy, mul_zero, sub_zero]
  rw [if_neg (by linarith : ¬((i : ℚ) < 1 / 2)),
    if_neg (by simp only [gt_iff_lt, not_lt]; linarith),
    if_neg (by linarith : ¬((j : ℚ) < 1 / 2)),
    if_neg (by simp only [gt_iff_lt, not_lt]; linarith)]
  simp only [Int.floor_intCast, sub_self]
  ring

/-- C5: the concrete scenario. On a solver with N = 4, diffusion 0,
viscosity 0, all buffers zero, after add-density(2,2,100) and one step with
a single iteration and fade rate 0 (any time step), the density at interior
cell (2,2) is exactly 100, every other interior density cell is exactly 0,
each edge boundary cell equals its adjacent interior cell and each corner is
the average of its two adjacent edge cells (the scalar boundary policy). -/
theorem C5_scenario (dt : ℚ) (i j : ℤ) (hi1 : 1 ≤ i) (hi2 : i ≤ 4)
    (hj1 : 1 ≤ j) (hj2 : j ≤ 4) :
    get2 4 (((mkSolver 4 0 0 dt).addDensity 2 2 100).step 1 0).density 2 2 = 100 ∧
    (¬(i = 2 ∧ j = 2) →
      get2 4 (((mkSolver 4 0 0 dt).addDensity 2 2 100).step 1 0).density i j = 0) ∧
    get2 4 (((mkSolver 4 0 0 dt).addDensity 2 2 100).step 1 0).density i 0 =
      get2 4 (((mkSolver 4 0 0 dt).addDensity 2 2 100).step 1 0).density i 1 ∧
    get2 4 (((mkSolver 4 0 0 dt).addDensity 2 2 100).step 1 0).density i 5 =
      get2 4 (((mkSolver 4 0 0 dt).addDensity 2 2 100).step 1 0).density i 4 ∧
    get2 4 (((mkSolver 4 0 0 dt).addDensity 2 2 100).step 1 0).density 0 j =
      get2 4 (((mkSolver 4 0 0 dt).addDensity 2 2 100).step 1 0).density 1 j ∧
    get2 4 (((mkSolver 4 0 0 dt).addDensity 2 2 100).step 1 0).density 5 j =
      get2 4 (((mkSolver 4 0 0 dt).addDensity 2 2 100).step 1 0).density 4 j ∧
    get2 4 (((mkSolver 4 0 0 dt).addDensity 2 2 100).step 1 0).density 0 0 =
      (1 / 2) * (get2 4 (((mkSolver 4 0 0 dt).addDensity 2 2 100).step 1 0).density 1 0 +
        get2 4 (((mkSolver 4 0 0 dt).addDensity 2 2 100).step 1 0).density 0 1) ∧
    get2 4 (((mkSolver 4 0 0 dt).addDensity 2 2 100).step 1 0).density 0 5 =
      (1 / 2) * (get2 4 (((mkSolver 4 0 0 dt).addDensity 2 2 100).step 1 0).density 1 5 +
        get2 4 (((mkSolver 4 0 0 dt).addDensity 2 2 100).step 1 0).density 0 4) ∧
    get2 4 (((mkSolver 4 0 0 dt).addDensity 2 2 100).step 1 0).density 5 0 =
      (1 / 2) * (get2 4 (((mkSolver 4 0 0 dt).addDensity 2 2 100).step 1 0).density 4 0 +
        get2 4 (((mkSolver 4 0 0 dt).addDensity 2 2 100).step 1 0).density 5 1) ∧
    get2 4 (((mkSolver 4 0 0 dt).addDensity 2 2 100).step 1 0).density 5 5 =
      (1 / 2) * (get2 4 (((mkSolver 4 0 0 dt).addDensity 2 2 100).step 1 0).density 4 5 +
        get2 4 (((mkSolver 4 0 0 dt).addDensity 2 2 100).step 1 0).density 5 4) := by
  have hz : ZeroBuf (fun _ : ℕ => (0 : ℚ)) := fun _ => rfl
  have hvel := stepVel_zero 4 hz hz hz hz 0 dt 1
  have hN : 1 ≤ 4 := by norm_num
  have hDeq : (((mkSolver 4 0 0 dt).addDensity 2 2 100).step 1 0).density =
      set_bnd 4 0 (sweep 4 (interiorList 4)
        (fun _ a b => advVal 4
          (diffuse 4 0 (fun _ => 0)
            (upd (fun _ => 0) (IX 4 2 2) ((fun _ : ℕ => (0 : ℚ)) (IX 4 2 2) + 100)) 0 dt 1)
          (stepVel 4 (fun _ => 0) (fun _ => 0) (fun _ => 0) (fun _ => 0) 0 dt 1).1
          (stepVel 4 (fun _ => 0) (fun _ => 0) (fun _ => 0) (fun _ => 0) 0 dt 1).2.1
          dt a b)
        (upd (fun _ => 0) (IX 4 2 2) ((fun _ : ℕ => (0 : ℚ)) (IX 4 2 2) + 100))) := by
    rw [step_density, if_neg (lt_irrefl 0)]
    rfl
  have hval : ∀ (g : Buf) (a b : ℤ), 1 ≤ a → a ≤ ((4 : ℕ) : ℤ) → 1 ≤ b → b ≤ ((4 : ℕ) : ℤ) →
      (fun (_ : Buf) a b => advVal 4
        (diffuse 4 0 (fun _ => 0)
          (upd (fun _ => 0) (IX 4 2 2) ((fun _ : ℕ => (0 : ℚ)) (IX 4 2 2) + 100)) 0 dt 1)
        (stepVel 4 (fun _ => 0) (fun _ => 0) (fun _ => 0) (fun _ => 0) 0 dt 1).1
        (stepVel 4 (fun _ => 0) (fun _ => 0) (fun _ => 0) (fun _ => 0) 0 dt 1).2.1
        dt a b) g a b =
      get2 4 (diffuse 4 0 (fun _ => 0)
        (upd (fun _ => 0) (IX 4 2 2) ((fun _ : ℕ => (0 : ℚ)) (IX 4 2 2) + 100)) 0 dt 1) a b :=
    fun g a b ha1 ha2 hb1 hb2 =>
      advVal_zero_vel 4 _ hvel.1 hvel.2.1 dt ha1 ha2 hb1 hb2
  have hs1 : ∀ a b : ℤ, 1 ≤ a → a ≤ ((4 : ℕ) : ℤ) → 1 ≤ b → b ≤ ((4 : ℕ) : ℤ) →
      get2 4 (diffuse 4 0 (fun _ => 0)
        (upd (fun _ => 0) (IX 4 2 2) ((fun _ : ℕ => (0 : ℚ)) (IX 4 2 2) + 100)) 0 dt 1) a b =
      get2 4 (upd (fun _ => 0) (IX 4 2 2) ((fun _ : ℕ => (0 : ℚ)) (IX 4 2 2) + 100)) a b :=
    fun a b ha1 ha2 hb1 hb2 => diffuse0_interior 4 0 hN _ _ dt 0 ha1 ha2 hb1 hb2
  have hinterior : ∀ a b : ℤ, 1 ≤ a → a ≤ (4 : ℤ) → 1 ≤ b → b ≤ (4 : ℤ) →
      get2 4 (((mkSolver 4 0 0 dt).addDensity 2 2 100).step 1 0).density a b =
      get2 4 (upd (fun _ => 0) (IX 4 2 2) ((fun _ : ℕ => (0 : ℚ)) (IX 4 2 2) + 100)) a b := by
    intro a b ha1 ha2 hb1 hb2
    rw [hDeq]
    rw [copyBnd_interior 4 0 hN (upd (fun _ => 0) (IX 4 2 2) ((fun _ : ℕ => (0 : ℚ)) (IX 4 2 2) + 100)) _ _ hval ha1 (by omega) hb1 (by omega)]
    exact hs1 a b ha1 (by omega) hb1 (by omega)
  have hpre22 : get2 4 (upd (fun _ => 0) (IX 4 2 2)
      ((fun _ : ℕ => (0 : ℚ)) (IX 4 2 2) + 100)) 2 2 = 100 := by
    unfold get2
    rw [upd_same]
    norm_num
  refine ⟨?_, ?_, ?_, ?_, ?_, ?_, ?_, ?_, ?_, ?_⟩
  · rw [hinterior 2 2 (by norm_num) (by norm_num) (by norm_num) (by norm_num), hpre22]
  · intro hne
    rw [hinterior i j hi1 hi2 hj1 hj2]
    unfold get2
    have hk : IX 4 i j ≠ IX 4 2 2 := by
      intro he
      have hvi : ValidC 4 i j := ⟨by omega, by omega, by omega, by omega⟩
      have hv2 : ValidC 4 2 2 := ⟨by omega, by omega, by omega, by omega⟩
      rcases IX_inj 4 hvi hv2 he with ⟨e1, e2⟩
      exact hne ⟨e1, e2⟩
    rw [upd_ne _ _ _ _ hk]
  · rw [hDeq]
    rw [copyBnd_top 4 0 hN (upd (fun _ => 0) (IX 4 2 2) ((fun _ : ℕ => (0 : ℚ)) (IX 4 2 2) + 100)) _ _ hval hi1 (by omega),
      if_neg (by norm_num : ¬(0 : ℕ) = 2),
      copyBnd_interior 4 0 hN (upd (fun _ => 0) (IX 4 2 2) ((fun _ : ℕ => (0 : ℚ)) (IX 4 2 2) + 100)) _ _ hval hi1 (by omega) (by norm_num) (by norm_num)]
  · rw [hDeq]
    have hb := copyBnd_bottom 4 0 hN (upd (fun _ => 0) (IX 4 2 2) ((fun _ : ℕ => (0 : ℚ)) (IX 4 2 2) + 100)) _ _ hval hi1 (show i ≤ ((4 : ℕ) : ℤ) by omega)
    rw [if_neg (by norm_num : ¬(0 : ℕ) = 2)] at hb
    have h5 : ((4 : ℕ) : ℤ) + 1 = (5 : ℤ) := by norm_num
    have h4 : ((4 : ℕ) : ℤ) = (4 : ℤ) := by norm_num
    rw [h5, h4] at hb
    rw [hb, copyBnd_interior 4 0 hN (upd (fun _ => 0) (IX 4 2 2) ((fun _ : ℕ => (0 : ℚ)) (IX 4 2 2) + 100)) _ _ hval hi1 (by omega) (by norm_num) (by norm_num)]
  · rw [hDeq]
    rw [copyBnd_left 4 0 hN (upd (fun _ => 0) (IX 4 2 2) ((fun _ : ℕ => (0 : ℚ)) (IX 4 2 2) + 100)) _ _ hval hj1 (by omega),
      if_neg (by norm_num : ¬(0 : ℕ) = 1),
      copyBnd_interior 4 0 hN (upd (fun _ => 0) (IX 4 2 2) ((fun _ : ℕ => (0 : ℚ)) (IX 4 2 2) + 100)) _ _ hval (by norm_num) (by norm_num) hj1 (by omega)]
  · rw [hDeq]
    have hb := copyBnd_right 4 0 hN (upd (fun _ => 0) (IX 4 2 2) ((fun _ : ℕ => (0 : ℚ)) (IX 4 2 2) + 100)) _ _ hval hj1 (show j ≤ ((4 : ℕ) : ℤ) by omega)
    rw [if_neg (by norm_num : ¬(0 : ℕ) = 1)] at hb
    have h5 : ((4 : ℕ) : ℤ) + 1 = (5 : ℤ) := by norm_num
    have h4 : ((4 : ℕ) : ℤ) = (4 : ℤ) := by norm_num
    rw [h5, h4] at hb
    rw [hb, copyBnd_interior 4 0 hN (upd (fun _ => 0) (IX 4 2 2) ((fun _ : ℕ => (0 : ℚ)) (IX 4 2 2) + 100)) _ _ hval (by norm_num) (by norm_num) hj1 (by omega)]
  · rw [hDeq]
    exact set_bnd_corner00 4 0 hN _
  · rw [hDeq]
    have hc := set_bnd_corner0N 4 0 hN (sweep 4 (interiorList 4)
      (fun _ a b => advVal 4
        (diffuse 4 0 (fun _ => 0)
          (upd (fun _ => 0) (IX 4 2 2) ((fun _ : ℕ => (0 : ℚ)) (IX 4 2 2) + 100)) 0 dt 1)
        (stepVel 4 (fun _ => 0) (fun _ => 0) (fun _ => 0) (fun _ => 0) 0 dt 1).1
        (stepVel 4 (fun _ => 0) (fun _ => 0) (fun _ => 0) (fun _ => 0) 0 dt 1).2.1
        dt a b)
      (upd (fun _ => 0) (IX 4 2 2) ((fun _ : ℕ => (0 : ℚ)) (IX 4 2 2) + 100)))
    have h5 : ((4 : ℕ) : ℤ) + 1 = (5 : ℤ) := by norm_num
    have h4 : ((4 : ℕ) : ℤ) = (4 : ℤ) := by norm_num
    rw [h5, h4] at hc
    exact hc
  · rw [hDeq]
    have hc := set_bnd_cornerN0 4 0 hN (sweep 4 (interiorList 4)
      (fun _ a b => advVal 4
        (diffuse 4 0 (fun _ => 0)
          (upd (fun _ => 0) (IX 4 2 2) ((fun _ : ℕ => (0 : ℚ)) (IX 4 2 2) + 100)) 0 dt 1)
        (stepVel 4 (fun _ => 0) (fun _ => 0) (fun _ => 0) (fun _ => 0) 0 dt 1).1
        (stepVel 4 (fun _ => 0) (fun _ => 0) (fun _ => 0) (fun _ => 0) 0 dt 1).2.1
        dt a b)
      (upd (fun _ => 0) (IX 4 2 2) ((fun _ : ℕ => (0 : ℚ)) (IX 4 2 2) + 100)))
    have h5 : ((4 : ℕ) : ℤ) + 1 = (5 : ℤ) := by norm_num
    have h4 : ((4 : ℕ) : ℤ) = (4 : ℤ) := by norm_num
    rw [h5, h4] at hc
    exact hc
  · rw [hDeq]
    have hc := set_bnd_cornerNN 4 0 hN (sweep 4 (interiorList 4)
      (fun _ a b => advVal 4
        (diffuse 4 0 (fun _ => 0)
          (upd (fun _ => 0) (IX 4 2 2) ((fun _ : ℕ => (0 : ℚ)) (IX 4 2 2) + 100)) 0 dt 1)
        (stepVel 4 (fun _ => 0) (fun _ => 0) (fun _ => 0) (fun _ => 0) 0 dt 1).1
        (stepVel 4 (fun _ => 0) (fun _ => 0) (fun _ => 0) (fun _ => 0) 0 dt 1).2.1
        dt a b)
      (upd (fun _ => 0) (IX 4 2 2) ((fun _ : ℕ => (0 : ℚ)) (IX 4 2 2) + 100)))
    have h5 : ((4 : ℕ) : ℤ) + 1 = (5 : ℤ) := by norm_num
    have h4 : ((4 : ℕ) : ℤ) = (4 : ℤ) := by norm_num
    rw [h5, h4] at hc
    exact hc

/-- Witness for C5 at dt = 1/10 and cell (1,1). -/
theorem C5_scenario_witness :
    get2 4 (((mkSolver 4 0 0 (1/10)).addDensity 2 2 100).step 1 0).density 2 2 = 100 ∧
    (¬((1 : ℤ) = 2 ∧ (1 : ℤ) = 2) →
      get2 4 (((mkSolver 4 0 0 (1/10)).addDensity 2 2 100).step 1 0).density 1 1 = 0) ∧
    get2 4 (((mkSolver 4 0 0 (1/10)).addDensity 2 2 100).step 1 0).density 1 0 =
      get2 4 (((mkSolver 4 0 0 (1/10)).addDensity 2 2 100).step 1 0).density 1 1 ∧
    get2 4 (((mkSolver 4 0 0 (1/10)).addDensity 2 2 100).step 1 0).density 1 5 =
      get2 4 (((mkSolver 4 0 0 (1/10)).addDensity 2 2 100).step 1 0).density 1 4 ∧
    get2 4 (((mkSolver 4 0 0 (1/10)).addDensity 2 2 100).step 1 0).density 0 1 =
      get2 4 (((mkSolver 4 0 0 (1/10)).addDensity 2 2 100).step 1 0).density 1 1 ∧
    get2 4 (((mkSolver 4 0 0 (1/10)).addDensity 2 2 100).step 1 0).density 5 1 =
      get2 4 (((mkSolver 4 0 0 (1/10)).addDensity 2 2 100).step 1 0).density 4 1 ∧
    get2 4 (((mkSolver 4 0 0 (1/10)).addDensity 2 2 100).step 1 0).density 0 0 =
      (1 / 2) * (get2 4 (((mkSolver 4 0 0 (1/10)).addDensity 2 2 100).step 1 0).density 1 0 +
        get2 4 (((mkSolver 4 0 0 (1/10)).addDensity 2 2 100).step 1 0).density 0 1) ∧
    get2 4 (((mkSolver 4 0 0 (1/10)).addDensity 2 2 100).step 1 0).density 0 5 =
      (1 / 2) * (get2 4 (((mkSolver 4 0 0 (1/10)).addDensity 2 2 100).step 1 0).density 1 5 +
        get2 4 (((mkSolver 4 0 0 (1/10)).addDensity 2 2 100).step 1 0).density 0 4) ∧
    get2 4 (((mkSolver 4 0 0 (1/10)).addDensity 2 2 100).step 1 0).density 5 0 =
      (1 / 2) * (get2 4 (((mkSolver 4 0 0 (1/10)).addDensity 2 2 100).step 1 0).density 4 0 +
        get2 4 (((mkSolver 4 0 0 (1/10)).addDensity 2 2 100).step 1 0).density 5 1) ∧
    get2 4 (((mkSolver 4 0 0 (1/10)).addDensity 2 2 100).step 1 0).density 5 5 =
      (1 / 2) * (get2 4 (((mkSolver 4 0 0 (1/10)).addDensity 2 2 100).step 1 0).density 4 5 +
        get2 4 (((mkSolver 4 0 0 (1/10)).addDensity 2 2 100).step 1 0).density 5 4) :=
  C5_scenario (1/10) 1 1 (by decide) (by decide) (by decide) (by decide)

/-! ### Fade and the C7 analysis -/

theorem get2_fadeBuf (N len : ℕ) (r : ℚ) (d : Buf) (i j : ℤ)
    (h : IX N i j < len) :
    get2 N (fadeBuf len r d) i j = max 0 (get2 N d i j * (1 - r)) := by
  unfold get2 fadeBuf
  rw [if_pos h]

/-- C7 counterexample: with diffusion rate 1, time step 1 and fade rate 1/2
on an N = 1 solver whose density is all zero but whose work buffer s holds 7
at the cell right of the interior cell, one step with no injection raises
the interior density cell from 0 to 1/2, so the density is not pointwise
non-increasing under a fade rate in (0,1]. -/
theorem C7_counterexample :
    get2 1 (FluidSolver.step
      { size := 1, dt := 1, diff := 1, visc := 0,
        s := upd (fun _ => 0) 5 7, density := fun _ => 0,
        Vx := fun _ => 0, Vy := fun _ => 0, Vx0 := fun _ => 0, Vy0 := fun _ => 0 }
      1 (1/2)).density 1 1 = 1/2 ∧
    get2 1 (FluidSolver.density
      { size := 1, dt := 1, diff := 1, visc := 0,
        s := upd (fun _ => 0) 5 7, density := fun _ => 0,
        Vx := fun _ => 0, Vy := fun _ => 0, Vx0 := fun _ => 0, Vy0 := fun _ => 0 }) 1 1 = 0 ∧
    ¬(get2 1 (FluidSolver.step
      { size := 1, dt := 1, diff := 1, visc := 0,
        s := upd (fun _ => 0) 5 7, density := fun _ => 0,
        Vx := fun _ => 0, Vy := fun _ => 0, Vx0 := fun _ => 0, Vy0 := fun _ => 0 }
      1 (1/2)).density 1 1 ≤
      get2 1 (FluidSolver.density
        { size := 1, dt := 1, diff := 1, visc := 0,
          s := upd (fun _ => 0) 5 7, density := fun _ => 0,
          Vx := fun _ => 0, Vy := fun _ => 0, Vx0 := fun _ => 0, Vy0 := fun _ => 0 }) 1 1) := by
  have hz : ZeroBuf (fun _ : ℕ => (0 : ℚ)) := fun _ => rfl
  have hvel := stepVel_zero 1 hz hz hz hz 0 1 1
  have hpost : get2 1 (FluidSolver.step
      { size := 1, dt := 1, diff := 1, visc := 0,
        s := upd (fun _ => 0) 5 7, density := fun _ => 0,
        Vx := fun _ => 0, Vy := fun _ => 0, Vx0 := fun _ => 0, Vy0 := fun _ => 0 }
      1 (1/2)).density 1 1 = 1/2 := by
    have hDeq : (FluidSolver.step
        { size := 1, dt := 1, diff := 1, visc := 0,
          s := upd (fun _ => 0) 5 7, density := fun _ => 0,
          Vx := fun _ => 0, Vy := fun _ => 0, Vx0 := fun _ => 0, Vy0 := fun _ => 0 }
        1 (1/2)).density =
        fadeBuf 9 (1/2)
          (advect 1 0 (fun _ => 0)
            (diffuse 1 0 (upd (fun _ => 0) 5 7) (fun _ => 0) 1 1 1)
            (stepVel 1 (fun _ => 0) (fun _ => 0) (fun _ => 0) (fun _ => 0) 0 1 1).1
            (stepVel 1 (fun _ => 0) (fun _ => 0) (fun _ => 0) (fun _ => 0) 0 1 1).2.1 1) := by
      rw [step_density, if_pos (by norm_num : (0 : ℚ) < 1/2)]
      rfl
    rw [hDeq, get2_fadeBuf 1 9 (1/2) _ 1 1 (by decide)]
    have hadv : get2 1 (advect 1 0 (fun _ => 0)
        (diffuse 1 0 (upd (fun _ => 0) 5 7) (fun _ => 0) 1 1 1)
        (stepVel 1 (fun _ => 0) (fun _ => 0) (fun _ => 0) (fun _ => 0) 0 1 1).1
        (stepVel 1 (fun _ => 0) (fun _ => 0) (fun _ => 0) (fun _ => 0) 0 1 1).2.1 1) 1 1 =
        get2 1 (diffuse 1 0 (upd (fun _ => 0) 5 7) (fun _ => 0) 1 1 1) 1 1 := by
      have hone : (1 : ℤ) ≤ ((1 : ℕ) : ℤ) := by norm_num
      exact copyBnd_interior 1 0 (le_refl 1) (fun _ => 0) _ _
        (fun g a b ha1 ha2 hb1 hb2 =>
          advVal_zero_vel 1 _ hvel.1 hvel.2.1 1 ha1 ha2 hb1 hb2)
        (le_refl 1) hone (le_refl 1) hone
    rw [hadv]
    have hs1eq : diffuse 1 0 (upd (fun _ => 0) 5 7) (fun _ => 0) 1 1 1 =
        set_bnd 1 0 (sweep 1 (interiorList 1)
          (linVal 1 (fun _ => 0) (1 * 1 * (((1 : ℕ) : ℚ) - 2) * (((1 : ℕ) : ℚ) - 2))
            (1 / (1 + 6 * (1 * 1 * (((1 : ℕ) : ℚ) - 2) * (((1 : ℕ) : ℚ) - 2)))))
          (upd (fun _ => 0) 5 7)) := rfl
    rw [hs1eq]
    rw [set_bnd_interior 1 0 (le_refl 1) _ (le_refl 1) (by norm_num) (le_refl 1) (by norm_num)]
    have hil : interiorList 1 = [((1 : ℤ), (1 : ℤ))] := by decide
    rw [hil, sweep_cons, sweep_nil]
    rw [get2_set2_same]
    unfold linVal
    have e1 : get2 1 (fun _ : ℕ => (0 : ℚ)) 1 1 = 0 := rfl
    have e2 : get2 1 (upd (fun _ => 0) 5 7) (1 + 1) 1 = 7 := by
      unfold get2
      have : IX 1 (1 + 1) 1 = 5 := by decide
      rw [this, upd_same]
    have e3 : get2 1 (upd (fun _ => 0) 5 7) (1 - 1) 1 = 0 := by
      unfold get2
      rw [upd_ne _ _ _ _ (by decide : IX 1 (1 - 1) 1 ≠ 5)]
    have e4 : get2 1 (upd (fun _ => 0) 5 7) 1 (1 + 1) = 0 := by
      unfold get2
      rw [upd_ne _ _ _ _ (by decide : IX 1 1 (1 + 1) ≠ 5)]
    have e5 : get2 1 (upd (fun _ => 0) 5 7) 1 (1 - 1) = 0 := by
      unfold get2
      rw [upd_ne _ _ _ _ (by decide : IX 1 1 (1 - 1) ≠ 5)]
    rw [e1, e2, e3, e4, e5]
    norm_num
  refine ⟨hpost, rfl, ?_⟩
  rw [hpost]
  show ¬((1 : ℚ)/2 ≤ 0)
  norm_num

/-- A step of the simulation preserves having all-zero velocity buffers. -/
theorem step_zeroVel (sol : FluidSolver) (iter : ℕ) (r : ℚ) (hvel : ZeroVel sol) :
    ZeroVel (sol.step iter r) := by
  obtain ⟨h1, h2, h3, h4⟩ := hvel
  have h := stepVel_zero sol.size h1 h2 h3 h4 sol.visc sol.dt iter
  exact ⟨h.1, h.2.1, h.2.2.1, h.2.2.2⟩

/-- One step on a solver with zero velocities and zero diffusion rate, with a
positive fade rate: every interior density cell becomes
max 0 (previous * (1 - r)). -/
theorem step_fade_interior (sol : FluidSolver) (k : ℕ) (r : ℚ) (hr0 : 0 < r)
    (hN : 1 ≤ sol.size) (hvel : ZeroVel sol) (hdiff : sol.diff = 0)
    {i j : ℤ} (hi1 : 1 ≤ i) (hi2 : i ≤ (sol.size : ℤ))
    (hj1 : 1 ≤ j) (hj2 : j ≤ (sol.size : ℤ)) :
    get2 sol.size (sol.step (k + 1) r).density i j =
      max 0 (get2 sol.size sol.density i j * (1 - r)) := by
  obtain ⟨hvx, hvy, hvx0, hvy0⟩ := hvel
  have hvelz := stepVel_zero sol.size hvx hvy hvx0 hvy0 sol.visc sol.dt (k + 1)
  rw [step_density, if_pos hr0]
  rw [get2_fadeBuf sol.size ((sol.size + 2) * (sol.size + 2)) r _ i j
    (IX_lt sol.size i j)]
  have hadv : get2 sol.size (advect sol.size 0 sol.density
      (diffuse sol.size 0 sol.s sol.density sol.diff sol.dt (k + 1))
      (stepVel sol.size sol.Vx sol.Vy sol.Vx0 sol.Vy0 sol.visc sol.dt (k + 1)).1
      (stepVel sol.size sol.Vx sol.Vy sol.Vx0 sol.Vy0 sol.visc sol.dt (k + 1)).2.1
      sol.dt) i j =
      get2 sol.size (diffuse sol.size 0 sol.s sol.density sol.diff sol.dt (k + 1)) i j := by
    exact copyBnd_interior sol.size 0 hN sol.density _ _
      (fun g a b ha1 ha2 hb1 hb2 =>
        advVal_zero_vel sol.size _ hvelz.1 hvelz.2.1 sol.dt ha1 ha2 hb1 hb2)
      hi1 hi2 hj1 hj2
  rw [hadv, hdiff]
  rw [diffuse0_interior sol.size 0 hN sol.s sol.density sol.dt k hi1 hi2 hj1 hj2]

/-- Running n simulation ticks in sequence (the render loop calls step once
per animation frame). -/
def stepN (sol : FluidSolver) (iter : ℕ) (r : ℚ) : ℕ → FluidSolver
  | 0 => sol
  | n + 1 => (stepN sol iter r n).step iter r

theorem stepN_size (sol : FluidSolver) (iter : ℕ) (r : ℚ) (n : ℕ) :
    (stepN sol iter r n).size = sol.size := by
  induction n with
  | zero => rfl
  | succ n ih =>
    show ((stepN sol iter r n).step iter r).size = sol.size
    rw [step_size]
    exact ih

theorem stepN_diff (sol : FluidSolver) (iter : ℕ) (r : ℚ) (n : ℕ) :
    (stepN sol iter r n).diff = sol.diff := by
  induction n with
  | zero => rfl
  | succ n ih =>
    show ((stepN sol iter r n).step iter r).diff = sol.diff
    rw [step_diff]
    exact ih

theorem stepN_zeroVel (sol : FluidSolver) (iter : ℕ) (r : ℚ) (hvel : ZeroVel sol)
    (n : ℕ) : ZeroVel (stepN sol iter r n) := by
  induction n with
  | zero => exact hvel
  | succ n ih => exact step_zeroVel _ iter r ih

/-- Closed form for n ticks on a zero-velocity, zero-diffusion solver with
non-negative interior density: each interior cell is scaled by (1-r)^n. -/
theorem stepN_fade_interior (sol : FluidSolver) (k : ℕ) (r : ℚ)
    (hr0 : 0 < r) (hr1 : r ≤ 1) (hN : 1 ≤ sol.size)
    (hvel : ZeroVel sol) (hdiff : sol.diff = 0)
    (hd : ∀ a b : ℤ, 1 ≤ a → a ≤ (sol.size : ℤ) → 1 ≤ b → b ≤ (sol.size : ℤ) →
      0 ≤ get2 sol.size sol.density a b)
    (n : ℕ) {i j : ℤ} (hi1 : 1 ≤ i) (hi2 : i ≤ (sol.size : ℤ))
    (hj1 : 1 ≤ j) (hj2 : j ≤ (sol.size : ℤ)) :
    get2 sol.size (stepN sol (k + 1) r n).density i j =
      (1 - r) ^ n * get2 sol.size sol.density i j := by
  induction n with
  | zero => rw [pow_zero, one_mul]; rfl
  | succ n ih =>
    show get2 sol.size ((stepN sol (k + 1) r n).step (k + 1) r).density i j = _
    have hsz := stepN_size sol (k + 1) r n
    have hone := step_fade_interior (stepN sol (k + 1) r n) k r hr0
      (by rw [hsz]; exact hN) (stepN_zeroVel sol (k + 1) r hvel n)
      (by rw [stepN_diff]; exact hdiff)
      (i := i) (j := j) hi1 (by rw [hsz]; exact hi2) hj1 (by rw [hsz]; exact hj2)
    rw [hsz] at hone
    rw [hone, ih]
    have hpre := hd i j hi1 hi2 hj1 hj2
    have h1r : (0 : ℚ) ≤ 1 - r := by linarith
    rw [max_eq_right (mul_nonneg (mul_nonneg (pow_nonneg h1r n) hpre) h1r)]
    ring

/-- C7 (amended): fade monotonicity holds for the pure dissipation regime the
fade loop implements. For a fade rate r in (0,1], on a solver with zero
velocities and zero diffusion rate and non-negative interior density, one
step with no injection makes every interior density cell ≤ its pre-tick
value; n ticks scale every interior cell by exactly (1-r)^n; and for any
bound M on the initial interior density and any ε > 0 some number of ticks
drives every interior density cell below ε. (Without these extra
hypotheses the per-cell monotonicity is false: diffusion and advection
redistribute density, see the counterexample.) -/
theorem C7_fade_amended (sol : FluidSolver) (k : ℕ) (r : ℚ)
    (hr0 : 0 < r) (hr1 : r ≤ 1) (hN : 1 ≤ sol.size)
    (hvel : ZeroVel sol) (hdiff : sol.diff = 0)
    (hd : ∀ a b : ℤ, 1 ≤ a → a ≤ (sol.size : ℤ) → 1 ≤ b → b ≤ (sol.size : ℤ) →
      0 ≤ get2 sol.size sol.density a b) :
    (∀ i j : ℤ, 1 ≤ i → i ≤ (sol.size : ℤ) → 1 ≤ j → j ≤ (sol.size : ℤ) →
      get2 sol.size (sol.step (k + 1) r).density i j ≤
        get2 sol.size sol.density i j) ∧
    (∀ n : ℕ, ∀ i j : ℤ, 1 ≤ i → i ≤ (sol.size : ℤ) → 1 ≤ j → j ≤ (sol.size : ℤ) →
      get2 sol.size (stepN sol (k + 1) r n).density i j =
        (1 - r) ^ n * get2 sol.size sol.density i j) ∧
    (∀ M : ℚ, 0 ≤ M →
      (∀ a b : ℤ, 1 ≤ a → a ≤ (sol.size : ℤ) → 1 ≤ b → b ≤ (sol.size : ℤ) →
        get2 sol.size sol.density a b ≤ M) →
      ∀ ε : ℚ, 0 < ε → ∃ n : ℕ, ∀ i j : ℤ, 1 ≤ i → i ≤ (sol.size : ℤ) →
        1 ≤ j → j ≤ (sol.size : ℤ) →
        get2 sol.size (stepN sol (k + 1) r n).density i j < ε) := by
  have h1r : (0 : ℚ) ≤ 1 - r := by linarith
  refine ⟨?_, ?_, ?_⟩
  · intro i j hi1 hi2 hj1 hj2
    rw [step_fade_interior sol k r hr0 hN hvel hdiff hi1 hi2 hj1 hj2]
    have hpre := hd i j hi1 hi2 hj1 hj2
    rw [max_eq_right (mul_nonneg hpre h1r)]
    nlinarith
  · intro n i j hi1 hi2 hj1 hj2
    exact stepN_fade_interior sol k r hr0 hr1 hN hvel hdiff hd n hi1 hi2 hj1 hj2
  · intro M hM0 hMb ε hε
    obtain ⟨n, hn⟩ := exists_pow_lt_of_lt_one
      (div_pos hε (by linarith : (0 : ℚ) < M + 1)) (by linarith : 1 - r < 1)
    refine ⟨n, fun i j hi1 hi2 hj1 hj2 => ?_⟩
    rw [stepN_fade_interior sol k r hr0 hr1 hN hvel hdiff hd n hi1 hi2 hj1 hj2]
    have hpre := hd i j hi1 hi2 hj1 hj2
    have hpb := hMb i j hi1 hi2 hj1 hj2
    have hpn : (0 : ℚ) ≤ (1 - r) ^ n := pow_nonneg h1r n
    calc (1 - r) ^ n * get2 sol.size sol.density i j
        ≤ (1 - r) ^ n * (M + 1) := by nlinarith
      _ < (ε / (M + 1)) * (M + 1) := by
          exact mul_lt_mul_of_pos_right hn (by linarith)
      _ = ε := div_mul_cancel₀ ε (by linarith : (0 : ℚ) < M + 1).ne'

theorem C7_fade_amended_witness :
    get2 (mkSolver 1 0 0 1).size ((mkSolver 1 0 0 1).step (0 + 1) (1/2)).density 1 1 ≤
      get2 (mkSolver 1 0 0 1).size (mkSolver 1 0 0 1).density 1 1 :=
  (C7_fade_amended (mkSolver 1 0 0 1) 0 (1/2) (by norm_num) (by norm_num)
    (le_refl 1) ⟨fun _ => rfl, fun _ => rfl, fun _ => rfl, fun _ => rfl⟩ rfl
    (fun a b _ _ _ _ => le_refl 0)).1 1 1 (le_refl 1) (le_refl 1) (le_refl 1) (le_refl 1)

/-! ### The projection stage (C8) -/

/-- A sweep over the interior whose value function reads the evolving buffer
only at the cell being written: each interior cell gets the value computed
from the initial buffer. -/
theorem sweep_local_interior (N : ℕ) (V : Buf → ℤ → ℤ → ℚ) (f : Buf)
    (hV : ∀ g c, c ∈ interiorList N →
      get2 N g c.1 c.2 = get2 N f c.1 c.2 → V g c.1 c.2 = V f c.1 c.2)
    {i j : ℤ} (hi1 : 1 ≤ i) (hi2 : i ≤ (N : ℤ)) (hj1 : 1 ≤ j) (hj2 : j ≤ (N : ℤ)) :
    get2 N (sweep N (interiorList N) V f) i j = V f i j := by
  have h := sweep_char N (interiorList N) V f (fun c hc => valid_interior hc)
    (nodup_interiorList N) (fun g c hc _ hcell => hV g c hc hcell)
    (i, j) ⟨by omega, by omega, by omega, by omega⟩
  rw [h, if_pos (mem_interiorList.mpr ⟨hi1, hi2, hj1, hj2⟩)]

theorem divAfterLoop_interior (N : ℕ) (vx vy dv : Buf) {i j : ℤ}
    (hi1 : 1 ≤ i) (hi2 : i ≤ (N : ℤ)) (hj1 : 1 ≤ j) (hj2 : j ≤ (N : ℤ)) :
    get2 N (divAfterLoop N vx vy dv) i j = divVal N vx vy i j := by
  unfold divAfterLoop
  rw [sweep_local_interior N (fun _ a b => divVal N vx vy a b) dv
    (fun g c _ _ => rfl) hi1 hi2 hj1 hj2]

/-- One unfolding of the relaxation solver. -/
theorem lin_solve_succ (N b : ℕ) (x x0 : Buf) (a c : ℚ) (k : ℕ) :
    lin_solve N b x x0 a c (k + 1) =
      lin_solve N b (set_bnd N b (sweep N (interiorList N) (linVal N x0 a (1 / c)) x))
        x0 a c k := rfl

/-- Every positive-iteration relaxation solve ends with a boundary pass. -/
theorem lin_solve_succ_bnd (N b : ℕ) (x0 : Buf) (a c : ℚ) (k : ℕ) :
    ∀ x : Buf, ∃ y : Buf, lin_solve N b x x0 a c (k + 1) = set_bnd N b y := by
  induction k with
  | zero => intro x; exact ⟨_, rfl⟩
  | succ k ih =>
    intro x
    rw [lin_solve_succ]
    exact ih _

/-- The pressure component of project always carries the scalar boundary
pass outermost (from the initial set_bnd(0, p) when iter = 0, from the last
solver iteration otherwise). -/
theorem project_p_bnd (N : ℕ) (vx vy p dv : Buf) (iter : ℕ) :
    ∃ w, (project N vx vy p dv iter).2.2.1 = set_bnd N 0 w := by
  rw [project_eq]
  cases iter with
  | zero => exact ⟨pZeroed N p, rfl⟩
  | succ k =>
    obtain ⟨y, hy⟩ := lin_solve_succ_bnd N 0
      (set_bnd N 0 (divAfterLoop N vx vy dv)) 1 6 k (set_bnd N 0 (pZeroed N p))
    exact ⟨y, hy⟩

/-- C8: the projection stage. For every interior cell the divergence output
is -0.5*((Vx[i+1,j]-Vx[i-1,j]) + (Vy[i,j+1]-Vy[i,j-1]))/N computed from the
input velocities; the pressure field handed to the solver is zero on the
whole interior; the pressure output is exactly the relaxation solve with
coefficients a = 1, c = 6 on the post-boundary divergence; the velocity
outputs subtract the pressure gradient 0.5*N*(p[i+1,j]-p[i-1,j]) resp.
0.5*N*(p[i,j+1]-p[i,j-1]) at every interior cell; and the boundary routine
is applied last with kind 1 to Vx, kind 2 to Vy and kind 0 to div and p
(so on the outputs the left column of Vx and the top row of Vy are negated
mirrors while the top row of div is a plain copy). -/
theorem C8_projection (N : ℕ) (hN : 1 ≤ N) (vx vy p dv : Buf) (iter : ℕ) :
    (∀ i j : ℤ, 1 ≤ i → i ≤ (N : ℤ) → 1 ≤ j → j ≤ (N : ℤ) →
      get2 N (project N vx vy p dv iter).2.2.2 i j =
        (-(1 / 2) * (get2 N vx (i + 1) j - get2 N vx (i - 1) j +
                     get2 N vy i (j + 1) - get2 N vy i (j - 1))) / (N : ℚ)) ∧
    (∀ i j : ℤ, 1 ≤ i → i ≤ (N : ℤ) → 1 ≤ j → j ≤ (N : ℤ) →
      get2 N (set_bnd N 0 (pZeroed N p)) i j = 0) ∧
    ((project N vx vy p dv iter).2.2.1 =
      lin_solve N 0 (set_bnd N 0 (pZeroed N p))
        (set_bnd N 0 (divAfterLoop N vx vy dv)) 1 6 iter) ∧
    (∀ i j : ℤ, 1 ≤ i → i ≤ (N : ℤ) → 1 ≤ j → j ≤ (N : ℤ) →
      get2 N (project N vx vy p dv iter).1 i j =
        get2 N vx i j - (1 / 2) * (N : ℚ) *
          (get2 N (project N vx vy p dv iter).2.2.1 (i + 1) j -
           get2 N (project N vx vy p dv iter).2.2.1 (i - 1) j)) ∧
    (∀ i j : ℤ, 1 ≤ i → i ≤ (N : ℤ) → 1 ≤ j → j ≤ (N : ℤ) →
      get2 N (project N vx vy p dv iter).2.1 i j =
        get2 N vy i j - (1 / 2) * (N : ℚ) *
          (get2 N (project N vx vy p dv iter).2.2.1 i (j + 1) -
           get2 N (project N vx vy p dv iter).2.2.1 i (j - 1))) ∧
    (∃ w, (project N vx vy p dv iter).1 = set_bnd N 1 w) ∧
    (∃ w, (project N vx vy p dv iter).2.1 = set_bnd N 2 w) ∧
    (∃ w, (project N vx vy p dv iter).2.2.2 = set_bnd N 0 w) ∧
    (∃ w, (project N vx vy p dv iter).2.2.1 = set_bnd N 0 w) ∧
    (∀ j : ℤ, 1 ≤ j → j ≤ (N : ℤ) →
      get2 N (project N vx vy p dv iter).1 0 j =
        -(get2 N (project N vx vy p dv iter).1 1 j)) ∧
    (∀ i : ℤ, 1 ≤ i → i ≤ (N : ℤ) →
      get2 N (project N vx vy p dv iter).2.1 i 0 =
        -(get2 N (project N vx vy p dv iter).2.1 i 1)) ∧
    (∀ i : ℤ, 1 ≤ i → i ≤ (N : ℤ) →
      get2 N (project N vx vy p dv iter).2.2.2 i 0 =
        get2 N (project N vx vy p dv iter).2.2.2 i 1) := by
  have hN1 : (1 : ℤ) ≤ (N : ℤ) := by exact_mod_cast hN
  refine ⟨?_, ?_, ?_, ?_, ?_, ?_, ?_, ?_, ?_, ?_, ?_, ?_⟩
  · intro i j hi1 hi2 hj1 hj2
    rw [project_eq]
    show get2 N (set_bnd N 0 (divAfterLoop N vx vy dv)) i j = _
    rw [set_bnd_interior N 0 hN _ hi1 hi2 hj1 hj2]
    rw [divAfterLoop_interior N vx vy dv hi1 hi2 hj1 hj2]
    rfl
  · intro i j hi1 hi2 hj1 hj2
    rw [set_bnd_interior N 0 hN _ hi1 hi2 hj1 hj2]
    unfold pZeroed
    rw [sweep_local_interior N (fun _ _ _ => (0 : ℚ)) p (fun g c _ _ => rfl)
      hi1 hi2 hj1 hj2]
  · rw [project_eq]
    rfl
  · intro i j hi1 hi2 hj1 hj2
    rw [project_eq]
    show get2 N (set_bnd N 1 (sweep N (interiorList N)
        (gradX N (pressureSolved N vx vy p dv iter)) vx)) i j =
      get2 N vx i j - (1 / 2) * (N : ℚ) *
        (get2 N (pressureSolved N vx vy p dv iter) (i + 1) j -
         get2 N (pressureSolved N vx vy p dv iter) (i - 1) j)
    rw [set_bnd_interior N 1 hN _ hi1 hi2 hj1 hj2]
    rw [sweep_local_interior N (gradX N (pressureSolved N vx vy p dv iter)) vx
      (fun g c hc hcell => by unfold gradX; rw [hcell]) hi1 hi2 hj1 hj2]
    rfl
  · intro i j hi1 hi2 hj1 hj2
    rw [project_eq]
    show get2 N (set_bnd N 2 (sweep N (interiorList N)
        (gradY N (pressureSolved N vx vy p dv iter)) vy)) i j =
      get2 N vy i j - (1 / 2) * (N : ℚ) *
        (get2 N (pressureSolved N vx vy p dv iter) i (j + 1) -
         get2 N (pressureSolved N vx vy p dv iter) i (j - 1))
    rw [set_bnd_interior N 2 hN _ hi1 hi2 hj1 hj2]
    rw [sweep_local_interior N (gradY N (pressureSolved N vx vy p dv iter)) vy
      (fun g c hc hcell => by unfold gradY; rw [hcell]) hi1 hi2 hj1 hj2]
    rfl
  · exact ⟨sweep N (interiorList N) (gradX N (pressureSolved N vx vy p dv iter)) vx,
      by rw [project_eq]⟩
  · exact ⟨sweep N (interiorList N) (gradY N (pressureSolved N vx vy p dv iter)) vy,
      by rw [project_eq]⟩
  · exact ⟨divAfterLoop N vx vy dv, by rw [project_eq]⟩
  · exact project_p_bnd N vx vy p dv iter
  · intro j hj1 hj2
    rw [project_eq]
    show get2 N (set_bnd N 1 (sweep N (interiorList N)
        (gradX N (pressureSolved N vx vy p dv iter)) vx)) 0 j =
      -(get2 N (set_bnd N 1 (sweep N (interiorList N)
        (gradX N (pressureSolved N vx vy p dv iter)) vx)) 1 j)
    rw [set_bnd_left N 1 hN _ hj1 hj2, if_pos rfl]
    rw [set_bnd_interior N 1 hN _ (le_refl 1) hN1 hj1 hj2]
  · intro i hi1 hi2
    rw [project_eq]
    show get2 N (set_bnd N 2 (sweep N (interiorList N)
        (gradY N (pressureSolved N vx vy p dv iter)) vy)) i 0 =
      -(get2 N (set_bnd N 2 (sweep N (interiorList N)
        (gradY N (pressureSolved N vx vy p dv iter)) vy)) i 1)
    rw [set_bnd_top N 2 hN _ hi1 hi2, if_pos rfl]
    rw [set_bnd_interior N 2 hN _ hi1 hi2 (le_refl 1) hN1]
  · intro i hi1 hi2
    rw [project_eq]
    show get2 N (set_bnd N 0 (divAfterLoop N vx vy dv)) i 0 =
      get2 N (set_bnd N 0 (divAfterLoop N vx vy dv)) i 1
    rw [set_bnd_top N 0 hN _ hi1 hi2, if_neg (by norm_num : ¬(0 = 2))]
    rw [set_bnd_interior N 0 hN _ hi1 hi2 (le_refl 1) hN1]

theorem C8_projection_witness :
    (project 1 (fun _ => 0) (fun _ => 0) (fun _ => 0) (fun _ => 0) 1).2.2.1 =
      lin_solve 1 0 (set_bnd 1 0 (pZeroed 1 (fun _ => 0)))
        (set_bnd 1 0 (divAfterLoop 1 (fun _ => 0) (fun _ => 0) (fun _ => 0))) 1 6 1 :=
  (C8_projection 1 (le_refl 1) (fun _ => 0) (fun _ => 0) (fun _ => 0)
    (fun _ => 0) 1).2.2.1
